import Mathlib

/-! Verification of the `kr` profile derivations.

Shallow embedding of `profile.go`: the `Profile` value and the derivations
`Equal`, `AuthorizedKeyString`, `AuthorizedKeyStringWithoutEmail`,
`SSHPublicKey`, `PublicKeyFingerprint`, `AsciiArmorPGPPublicKey` and
`PGPPublicKeySHA1Fingerprint`; and of `version_linux.go`: `CURRENT_VERSION`,
`GetLatestVersion` and `GetCachedLatestVersion`.

Conventions.
* A Go `string` is an immutable byte sequence and is embedded as `List Byte`;
  `str "..."` is the UTF-8 byte sequence of a literal.
* A Go `[]byte` may be the nil slice; `ByteSlice` keeps that distinction and
  `ByteSlice.bytes` is the byte sequence every library call observes.
* A Go function with results `(s string, err error)` returns the pair
  `(s, err)` with `err = none` for a nil error.
* The imported packages are not part of the source files. Their functions with
  a fixed, standard meaning (`strings.Replace`, base64, hex, SHA-256, the armor
  format) are modelled, each model saying so in its comment; the key parsers of
  `ssh`, `packet.Read` and `semver.Make` are arguments of the embedded
  functions, so the theorems about them hold for every implementation, and an
  instance of each serves to evaluate the theorems on concrete inputs. The
  instances `packetRead` and `semverMake` follow the steps of the packet and
  the semver package; what depends on those packages (which packets are a
  `*packet.PublicKey`, which texts `semver.Make` accepts) is stated for them.
* A call of a collaborator (`GetLatestVersions`, `GetCachedLatestVersions`) is
  embedded as the pair of results it returned.
* The loop of `PGPPublicKeySHA1Fingerprint` takes a bound on the number of
  packets read; `none` means the bound was reached.
-/

namespace Kr

/-! ## Values -/

/-- A Go `byte`. -/
abbrev Byte := UInt8

/-- Go `string`: a byte sequence. -/
abbrev GoString := List Byte

/-- UTF-8 bytes of a literal, the way Go stores a string literal. -/
def str (s : String) : GoString := s.data.flatMap String.utf8EncodeChar

/-- Go `error` values are identified by their message. -/
abbrev Error := GoString

/-- A Go `[]byte`: the nil slice, or a slice with its elements. -/
inductive ByteSlice where
  | nil
  | mk (elems : List Byte)
deriving DecidableEq

/-- The byte sequence held by a slice (empty for the nil slice). -/
def ByteSlice.bytes : ByteSlice → List Byte
  | .nil => []
  | .mk elems => elems

/-- The `Profile` struct of `profile.go`; `PGPPublicKey` is a `*[]byte`, `none` being the nil pointer. -/
structure Profile where
  SSHWirePublicKey : ByteSlice
  Email : GoString
  PGPPublicKey : Option ByteSlice
deriving DecidableEq

/-- The call `bytes.Equal(a, b)`: `string(a) == string(b)`, so nil and empty slices are equal. -/
def bytesEqual (a b : ByteSlice) : Bool := decide (a.bytes = b.bytes)

/-- Source: `func (p Profile) Equal(other Profile) bool`. -/
def Profile.Equal (p other : Profile) : Bool :=
  bytesEqual p.SSHWirePublicKey other.SSHWirePublicKey && decide (p.Email = other.Email)

/-! ## `strings.Replace` -/

/-- Modelled from the spec: the replacement loop of `strings.Replace` (Go
standard library, not among the source files) for `n = -1` and a non-empty
`old`. Scanning left to right, each occurrence of `old` in the unread rest is
replaced by `new` and the scan resumes after it; `skip` counts the bytes of the
occurrence still to be passed over. -/
def Replace.scan (old new : GoString) : Nat → GoString → GoString
  | _, [] => []
  | skip + 1, _ :: rest => Replace.scan old new skip rest
  | 0, c :: rest =>
      if old.isPrefixOf (c :: rest) then new ++ Replace.scan old new (old.length - 1) rest
      else c :: Replace.scan old new 0 rest

/-- Modelled from the spec: `strings.Replace(s, old, new, -1)` of the Go
standard library for a non-empty `old`, the call by which the spec's "every
space character in the email string is removed" is done (with `old == new` the
string is returned as it is). -/
def Replace (s old new : GoString) : GoString :=
  if old = new then s else Replace.scan old new 0 s

/-! ## `encoding/base64`, `encoding/hex` -/

/-- Modelled from the spec: the alphabet of `base64.StdEncoding` (RFC 4648), the
encoding behind the spec's `base64(wireBytes)`. -/
def encodeStd : GoString :=
  str "ABCDEFGHIJKLMNOPQRSTUVWXYZabcdefghijklmnopqrstuvwxyz0123456789+/"

/-- The constant `base64.StdPadding`, the character `=`. -/
def StdPadding : Byte := 61

/-- The table lookup `enc.encode[i]`. -/
def encodeStdAt (i : Nat) : Byte := encodeStd.getD i 0

/-- Modelled from the spec: `base64.StdEncoding.EncodeToString(src)` of the Go
standard library, the spec's `base64(wireBytes)`: three bytes give four
characters; a final group of one or two bytes is padded with `=`. -/
def EncodeToString : List Byte → GoString
  | a :: b :: c :: rest =>
      let val := a.toNat <<< 16 ||| b.toNat <<< 8 ||| c.toNat
      encodeStdAt (val >>> 18 &&& 0x3F) :: encodeStdAt (val >>> 12 &&& 0x3F) ::
        encodeStdAt (val >>> 6 &&& 0x3F) :: encodeStdAt (val &&& 0x3F) :: EncodeToString rest
  | [a, b] =>
      let val := a.toNat <<< 16 ||| b.toNat <<< 8
      [encodeStdAt (val >>> 18 &&& 0x3F), encodeStdAt (val >>> 12 &&& 0x3F),
        encodeStdAt (val >>> 6 &&& 0x3F), StdPadding]
  | [a] =>
      let val := a.toNat <<< 16
      [encodeStdAt (val >>> 18 &&& 0x3F), encodeStdAt (val >>> 12 &&& 0x3F),
        StdPadding, StdPadding]
  | [] => []

/-- Index of a character in the standard alphabet (the `decodeMap` of the
encoding), `none` for a character outside it. -/
def decodeStdAt (c : Byte) : Option Nat :=
  let i := encodeStd.indexOf c
  if i < 64 then some i else none

/-- Decoding of one group of four characters; padding is accepted in the last
group only. -/
def decodeQuantum (c0 c1 c2 c3 : Byte) (last : Bool) : Option (List Byte) :=
  if c3 = StdPadding then
    if last then
      if c2 = StdPadding then do
        let x0 ← decodeStdAt c0
        let x1 ← decodeStdAt c1
        let val := x0 <<< 18 ||| x1 <<< 12
        some [UInt8.ofNat (val >>> 16)]
      else do
        let x0 ← decodeStdAt c0
        let x1 ← decodeStdAt c1
        let x2 ← decodeStdAt c2
        let val := x0 <<< 18 ||| x1 <<< 12 ||| x2 <<< 6
        some [UInt8.ofNat (val >>> 16), UInt8.ofNat (val >>> 8)]
    else none
  else do
    let x0 ← decodeStdAt c0
    let x1 ← decodeStdAt c1
    let x2 ← decodeStdAt c2
    let x3 ← decodeStdAt c3
    let val := x0 <<< 18 ||| x1 <<< 12 ||| x2 <<< 6 ||| x3
    some [UInt8.ofNat (val >>> 16), UInt8.ofNat (val >>> 8), UInt8.ofNat val]

/-- Modelled from the spec: `base64.StdEncoding.DecodeString` on text without
line breaks (RFC 4648, padded), `none` when the text is not valid base64. The
repository never decodes; this is the decoding the encoded text is compared
against. -/
def DecodeString : GoString → Option (List Byte)
  | [] => some []
  | c0 :: c1 :: c2 :: c3 :: rest => do
      let q ← decodeQuantum c0 c1 c2 c3 rest.isEmpty
      let r ← DecodeString rest
      some (q ++ r)
  | _ => none

/-- Characters of the alphabet or the padding character. -/
def isStdChar (c : Byte) : Bool := encodeStd.contains c || c == StdPadding

/-- The digits of `hex.EncodeToString`. -/
def hextable : GoString := str "0123456789abcdef"

/-- Modelled from the spec: `hex.EncodeToString(src)` of the Go standard
library, the spec's "returned as lowercase hex": two digits per byte, high
nibble first. -/
def hexEncodeToString : List Byte → GoString
  | [] => []
  | v :: rest =>
      hextable.getD (v.toNat >>> 4) 0 :: hextable.getD (v.toNat &&& 0x0f) 0 ::
        hexEncodeToString rest

/-- The pieces of a byte string between occurrences of `sep` (always at least one piece). -/
def splitOn (sep : Byte) : GoString → List GoString
  | [] => [[]]
  | c :: rest =>
      if c = sep then [] :: splitOn sep rest
      else
        match splitOn sep rest with
        | [] => [[c]]
        | piece :: pieces => (c :: piece) :: pieces

/-! ## `golang.org/x/crypto/ssh` -/

/-- The function `binary.BigEndian.Uint32(b)`: the first four bytes as a big-endian number. -/
def bigEndianUint32 (b : List Byte) : Nat :=
  (b.getD 3 0).toNat ||| (b.getD 2 0).toNat <<< 8 ||| (b.getD 1 0).toNat <<< 16 |||
    (b.getD 0 0).toNat <<< 24

/-- Modelled from the spec: `parseString` of the ssh package (not among the
source files), which reads the spec's "length-prefixed algorithm name": a
four-byte big-endian length followed by that many bytes; `none` is the result
`ok = false`. The comparison is made on `uint32(len(in))`. -/
def parseString (inp : List Byte) : Option (List Byte × List Byte) :=
  if inp.length < 4 then none
  else
    let length := bigEndianUint32 inp
    let inp := inp.drop 4
    if inp.length % 2 ^ 32 < length then none
    else some (inp.take length, inp.drop length)

/-- The package error `errShortRead`. -/
def errShortRead : Error := str "ssh: short read"

/-- What `profile.go` uses of the ssh package beyond the length-prefixed
framing: the key values, their `Type()` method, and the per-algorithm parser
`parsePubKey(in, algo)`, which returns a key and the unread rest, or an error
(with a nil rest). -/
structure SSHPackage where
  PublicKey : Type
  keyType : PublicKey → GoString
  parsePubKey : List Byte → GoString → Except Error (PublicKey × List Byte)

/-- Modelled from the spec: `ssh.ParsePublicKey(in)` (not among the source
files), the spec's `parse(wireBytes)`: reads the length-prefixed algorithm
name, fails with the short-read error when it is cut off, hands the
type-specific fields to `parsePubKey`, and refuses unread trailing bytes. -/
def ParsePublicKey (L : SSHPackage) (inp : List Byte) : Except Error L.PublicKey :=
  match parseString inp with
  | none => .error errShortRead
  | some (algo, inp) =>
      match L.parsePubKey inp algo with
      | .error err => .error err
      | .ok (out, rest) =>
          if rest.length > 0 then .error (str "ssh: trailing junk in public key")
          else .ok out

/-- Modelled from the spec: the type-specific fields of an Ed25519 key, as
`parseED25519` of the ssh package reads them: one length-prefixed string of
exactly 32 bytes. -/
def parseED25519 (inp : List Byte) : Except Error (List Byte × List Byte) :=
  match parseString inp with
  | none => .error errShortRead
  | some (keyBytes, rest) =>
      if keyBytes.length ≠ 32 then
        .error (str "invalid size " ++ str (Nat.repr keyBytes.length) ++ str " for Ed25519 public key")
      else .ok (keyBytes, rest)

/-- Modelled from the spec: the Ed25519 variant of the key codec, that is
`parsePubKey` restricted to the algorithm `ssh-ed25519`, every other name being
reported as unknown. It is the instance at which the theorems, which hold for
every `SSHPackage`, are evaluated on concrete keys. -/
def ed25519Package : SSHPackage where
  PublicKey := List Byte
  keyType := fun _ => str "ssh-ed25519"
  parsePubKey := fun inp algo =>
    if algo = str "ssh-ed25519" then parseED25519 inp
    else .error (str "ssh: unknown key algorithm: " ++ algo)

/-! ## `profile.go`: authorized-keys lines -/

/-- Source: `func (p Profile) SSHPublicKey() (pk ssh.PublicKey, err error)`. -/
def Profile.SSHPublicKey (L : SSHPackage) (p : Profile) : Except Error L.PublicKey :=
  ParsePublicKey L p.SSHWirePublicKey.bytes

/-- Source: `func (p Profile) AuthorizedKeyStringWithoutEmail() (authString string, err error)`. -/
def Profile.AuthorizedKeyStringWithoutEmail (L : SSHPackage) (p : Profile) :
    GoString × Option Error :=
  match p.SSHPublicKey L with
  | .error err => ([], some err)
  | .ok pk =>
      (L.keyType pk ++ str " " ++ EncodeToString p.SSHWirePublicKey.bytes, none)

/-- Source: `func (p Profile) AuthorizedKeyString() (authString string, err error)`. -/
def Profile.AuthorizedKeyString (L : SSHPackage) (p : Profile) : GoString × Option Error :=
  match p.AuthorizedKeyStringWithoutEmail L with
  | (authString, some err) => (authString, some err)
  | (authString, none) =>
      (authString ++ (str " " ++ Replace p.Email (str " ") (str "")), none)

/-- A 51-byte Ed25519 wire key: the name `ssh-ed25519` and the 32 key bytes 1, 2, ..., 32. -/
def sampleWireKey : List Byte :=
  [0, 0, 0, 11] ++ str "ssh-ed25519" ++ [0, 0, 0, 32] ++
    [1, 2, 3, 4, 5, 6, 7, 8, 9, 10, 11, 12, 13, 14, 15, 16, 17, 18, 19, 20, 21, 22, 23, 24,
      25, 26, 27, 28, 29, 30, 31, 32]

/-- A profile with the sample key, an email with an interior space, and no PGP key. -/
def sampleProfile : Profile :=
  { SSHWirePublicKey := .mk sampleWireKey, Email := str "a b@example.com", PGPPublicKey := none }

/-- The sample profile with its wire key cut to three bytes. -/
def truncatedProfile : Profile := { sampleProfile with SSHWirePublicKey := .mk [0, 0, 0] }

/-- The sample profile with a name length of 12 followed by only 11 bytes. -/
def overlongProfile : Profile :=
  { sampleProfile with SSHWirePublicKey := .mk ([0, 0, 0, 12] ++ str "ssh-ed25519") }

/-! ## `crypto/sha256` -/

/-- Modelled from the spec: the round constants `_K` of `crypto/sha256` (FIPS
180-4, section 4.2.2); the package is not among the source files. -/
def sha256K : List Nat :=
  [0x428A2F98, 0x71374491, 0xB5C0FBCF, 0xE9B5DBA5,
   0x3956C25B, 0x59F111F1, 0x923F82A4, 0xAB1C5ED5,
   0xD807AA98, 0x12835B01, 0x243185BE, 0x550C7DC3,
   0x72BE5D74, 0x80DEB1FE, 0x9BDC06A7, 0xC19BF174,
   0xE49B69C1, 0xEFBE4786, 0x0FC19DC6, 0x240CA1CC,
   0x2DE92C6F, 0x4A7484AA, 0x5CB0A9DC, 0x76F988DA,
   0x983E5152, 0xA831C66D, 0xB00327C8, 0xBF597FC7,
   0xC6E00BF3, 0xD5A79147, 0x06CA6351, 0x14292967,
   0x27B70A85, 0x2E1B2138, 0x4D2C6DFC, 0x53380D13,
   0x650A7354, 0x766A0ABB, 0x81C2C92E, 0x92722C85,
   0xA2BFE8A1, 0xA81A664B, 0xC24B8B70, 0xC76C51A3,
   0xD192E819, 0xD6990624, 0xF40E3585, 0x106AA070,
   0x19A4C116, 0x1E376C08, 0x2748774C, 0x34B0BCB5,
   0x391C0CB3, 0x4ED8AA4A, 0x5B9CCA4F, 0x682E6FF3,
   0x748F82EE, 0x78A5636F, 0x84C87814, 0x8CC70208,
   0x90BEFFFA, 0xA4506CEB, 0xBEF9A3F7, 0xC67178F2]

/-- The eight `uint32` chaining values of a SHA-256 digest. -/
structure Sha256State where
  h0 : Nat
  h1 : Nat
  h2 : Nat
  h3 : Nat
  h4 : Nat
  h5 : Nat
  h6 : Nat
  h7 : Nat
deriving DecidableEq

/-- The initial chaining values `init0 .. init7`. -/
def sha256Init : Sha256State :=
  { h0 := 0x6a09e667, h1 := 0xbb67ae85, h2 := 0x3c6ef372, h3 := 0xa54ff53a,
    h4 := 0x510e527f, h5 := 0x9b05688c, h6 := 0x1f83d9ab, h7 := 0x5be0cd19 }

/-- The function `bits.RotateLeft32(x, -n)` on a 32-bit word. -/
def rotr32 (x n : Nat) : Nat := (x >>> n ||| x <<< (32 - n)) % 2 ^ 32

/-- Bitwise complement of a 32-bit word. -/
def not32 (x : Nat) : Nat := x ^^^ 0xffffffff

/-- The big-endian `uint32` words of a byte block. -/
def beWords : List Byte → List Nat
  | a :: b :: c :: d :: rest =>
      (a.toNat <<< 24 ||| b.toNat <<< 16 ||| c.toNat <<< 8 ||| d.toNat) :: beWords rest
  | _ => []

/-- One more word of the message schedule: `w[i] = t1 + w[i-7] + t2 + w[i-16]`. -/
def sha256Extend (w : List Nat) : List Nat :=
  let i := w.length
  let v1 := w.getD (i - 2) 0
  let t1 := rotr32 v1 17 ^^^ rotr32 v1 19 ^^^ (v1 >>> 10)
  let v2 := w.getD (i - 15) 0
  let t2 := rotr32 v2 7 ^^^ rotr32 v2 18 ^^^ (v2 >>> 3)
  w ++ [(t1 + w.getD (i - 7) 0 + t2 + w.getD (i - 16) 0) % 2 ^ 32]

/-- One round of the compression function on the working variables `a .. h`. -/
def sha256Round (s : Sha256State) (kw : Nat × Nat) : Sha256State :=
  let t1 := (s.h7 + (rotr32 s.h4 6 ^^^ rotr32 s.h4 11 ^^^ rotr32 s.h4 25) +
    ((s.h4 &&& s.h5) ^^^ (not32 s.h4 &&& s.h6)) + kw.1 + kw.2) % 2 ^ 32
  let t2 := ((rotr32 s.h0 2 ^^^ rotr32 s.h0 13 ^^^ rotr32 s.h0 22) +
    ((s.h0 &&& s.h1) ^^^ (s.h0 &&& s.h2) ^^^ (s.h1 &&& s.h2))) % 2 ^ 32
  { h0 := (t1 + t2) % 2 ^ 32, h1 := s.h0, h2 := s.h1, h3 := s.h2,
    h4 := (s.h3 + t1) % 2 ^ 32, h5 := s.h4, h6 := s.h5, h7 := s.h6 }

/-- Modelled from the spec: the function `block` of `crypto/sha256` on one
64-byte chunk (FIPS 180-4, section 6.2.2). -/
def sha256Block (s : Sha256State) (chunk : List Byte) : Sha256State :=
  let w := Nat.iterate sha256Extend 48 (beWords chunk)
  let r := (sha256K.zip w).foldl sha256Round s
  { h0 := (s.h0 + r.h0) % 2 ^ 32, h1 := (s.h1 + r.h1) % 2 ^ 32, h2 := (s.h2 + r.h2) % 2 ^ 32,
    h3 := (s.h3 + r.h3) % 2 ^ 32, h4 := (s.h4 + r.h4) % 2 ^ 32, h5 := (s.h5 + r.h5) % 2 ^ 32,
    h6 := (s.h6 + r.h6) % 2 ^ 32, h7 := (s.h7 + r.h7) % 2 ^ 32 }

/-- The running digest: chaining values and the bytes of the unfinished chunk. -/
structure Sha256Digest where
  h : Sha256State
  x : List Byte

/-- Writing one byte: it joins the pending chunk, which is compressed once it holds 64 bytes. -/
def Sha256Digest.writeByte (d : Sha256Digest) (b : Byte) : Sha256Digest :=
  let x := d.x ++ [b]
  if x.length = 64 then { h := sha256Block d.h x, x := [] } else { d with x := x }

/-- The method `Write` of the digest. -/
def Sha256Digest.Write (d : Sha256Digest) (p : List Byte) : Sha256Digest :=
  p.foldl Sha256Digest.writeByte d

/-- The function `binary.BigEndian.PutUint32`: the four bytes of a word. -/
def putUint32 (v : Nat) : List Byte :=
  [UInt8.ofNat (v >>> 24), UInt8.ofNat (v >>> 16), UInt8.ofNat (v >>> 8), UInt8.ofNat v]

/-- The function `binary.BigEndian.PutUint64`: the eight bytes of a word. -/
def putUint64 (v : Nat) : List Byte := putUint32 (v >>> 32) ++ putUint32 v

/-- The padding written by `checkSum`: `0x80`, zeros up to 56 bytes modulo 64,
and the message length in bits as a `uint64`. -/
def sha256Padding (len : Nat) : List Byte :=
  let t := if len % 64 < 56 then 56 - len % 64 else 64 + 56 - len % 64
  ((0x80 : Byte) :: List.replicate (t - 1) 0) ++ putUint64 ((len <<< 3) % 2 ^ 64)

/-- Modelled from the spec: `sha256.Sum256(data)` of the Go standard library,
the spec's "pure SHA-256 hash of the raw wire bytes" (FIPS 180-4): the message
is written to a fresh digest, then the padding, and the eight chaining values
are laid out big-endian. The result is the 32-byte array as a list. -/
def Sum256 (data : List Byte) : List Byte :=
  let d := (Sha256Digest.Write { h := sha256Init, x := [] } data).Write (sha256Padding data.length)
  putUint32 d.h.h0 ++ putUint32 d.h.h1 ++ putUint32 d.h.h2 ++ putUint32 d.h.h3 ++
    putUint32 d.h.h4 ++ putUint32 d.h.h5 ++ putUint32 d.h.h6 ++ putUint32 d.h.h7

/-- Source: `func (p Profile) PublicKeyFingerprint() []byte`. -/
def Profile.PublicKeyFingerprint (p : Profile) : List Byte :=
  Sum256 p.SSHWirePublicKey.bytes

/-! ## `golang.org/x/crypto/openpgp/armor` -/

/-- The constant `crc24Init`. -/
def crc24Init : Nat := 0xb704ce

/-- The constant `crc24Poly`. -/
def crc24Poly : Nat := 0x1864cfb

/-- One turn of the inner loop of `crc24` on a `uint32`: shift left and reduce. -/
def crc24Shift (crc : Nat) : Nat :=
  let crc := (crc <<< 1) % 2 ^ 32
  if crc &&& 0x1000000 ≠ 0 then crc ^^^ crc24Poly else crc

/-- The update of `crc24` for one byte. -/
def crc24Byte (crc : Nat) (b : Byte) : Nat :=
  Nat.iterate crc24Shift 8 (crc ^^^ (b.toNat <<< 16))

/-- Modelled from the spec: `crc24(crc, d)` of the armor package, the spec's
CRC-24 checksum (RFC 4880, section 6.1). -/
def crc24 (crc : Nat) (d : List Byte) : Nat := d.foldl crc24Byte crc

/-- The three checksum bytes `byte(crc >> 16), byte(crc >> 8), byte(crc)`. -/
def checksumBytes (crc : Nat) : List Byte :=
  [UInt8.ofNat (crc >>> 16), UInt8.ofNat (crc >>> 8), UInt8.ofNat crc]

/-- Start of the begin-marker line. -/
def armorStart : GoString := str "-----BEGIN "

/-- Start of the end-marker line. -/
def armorEnd : GoString := str "-----END "

/-- End of a marker line. -/
def armorEndOfLine : GoString := str "-----"

/-- End of the begin-marker line as written, with its newline. -/
def armorEndOfLineOut : GoString := str "-----\n"

/-- Separator of a header key and its value. -/
def armorHeaderSep : GoString := str ": "

/-- What ends the body: a newline and the `=` that opens the checksum line. -/
def blockEnd : GoString := str "\n="

/-- The newline character. -/
def newline : GoString := str "\n"

/-- Text cut into pieces of `n` characters, the last piece holding what is left
(at least one character unless the text is empty). -/
def wrapLines.go (n : Nat) : Nat → GoString → List GoString
  | 0, text => [text]
  | fuel + 1, text =>
      if n < text.length then text.take n :: wrapLines.go n fuel (text.drop n) else [text]

/-- Modelled from the spec: the body "wrapped at `n` characters per line", as
the line breaker of the armor package cuts it. -/
def wrapLines (n : Nat) (text : GoString) : List GoString := wrapLines.go n text.length text

/-- Lines joined by single newline characters, none after the last line. -/
def joinLines (lines : List GoString) : GoString := newline.intercalate lines

/-- Modelled from the spec: `armor.Encode` of the openpgp armor package, which
is not among the source files, followed by one `Write` of `data` and `Close`.
Per the spec the block is a begin-marker line, the header lines, the base64
body wrapped at 64 characters per line, a CRC-24 checksum line and an
end-marker line; the pieces are written in the order of the package: begin
marker, `key: value` lines, an empty line, the wrapped body (a newline between
lines, none after the last), then `blockEnd`, the base64 checksum, a newline
and the end marker. Writing into a `bytes.Buffer` cannot fail, so there is no
error result. -/
def armorEncode (blockType : GoString) (headers : List (GoString × GoString))
    (data : List Byte) : GoString :=
  armorStart ++ blockType ++ armorEndOfLineOut ++
    headers.flatMap (fun kv => kv.1 ++ armorHeaderSep ++ kv.2 ++ newline) ++
    newline ++
    joinLines (wrapLines 64 (EncodeToString data)) ++
    blockEnd ++ EncodeToString (checksumBytes (crc24 crc24Init data)) ++ newline ++
    armorEnd ++ blockType ++ armorEndOfLine

/-- The decoded block: `armor.Block` with its body read to the end. -/
structure Block where
  blockType : GoString
  Header : List (GoString × GoString)
  Body : List Byte
deriving DecidableEq

/-- The block type of a line `-----BEGIN <type>-----`. -/
def parseArmorStart (line : GoString) : Option GoString :=
  if armorStart.isPrefixOf line ∧ armorEndOfLine.isSuffixOf (line.drop armorStart.length) then
    some ((line.drop armorStart.length).take
      (line.length - armorStart.length - armorEndOfLine.length))
  else none

/-- A header line cut at its first `": "`. -/
def splitHeader : GoString → Option (GoString × GoString)
  | [] => none
  | c :: rest =>
      if armorHeaderSep.isPrefixOf (c :: rest) then some ([], (c :: rest).drop armorHeaderSep.length)
      else (splitHeader rest).map (fun kv => (c :: kv.1, kv.2))

/-- Header lines up to the empty line that ends them; returns the headers and the lines after. -/
def readHeaders : List GoString → Option (List (GoString × GoString) × List GoString)
  | [] => none
  | line :: rest =>
      if line = [] then some ([], rest)
      else do
        let kv ← splitHeader line
        let (hs, body) ← readHeaders rest
        some (kv :: hs, body)

/-- The checksum line and what must follow it: exactly the end-marker line of
the block type. Returns the three checksum bytes. -/
def readChecksum (blockType line : GoString) (rest : List GoString) : Option (List Byte) :=
  match rest with
  | [last] =>
      if last = armorEnd ++ blockType ++ armorEndOfLine then DecodeString (line.drop 1)
      else none
  | _ => none

/-- Body lines up to the checksum line (five characters, the first `=`), which
must be followed by the end marker; returns the base64 text and the checksum.
A block that ends without a checksum line, or has a line of more than 96
characters, is refused. -/
def readBody (blockType : GoString) : List GoString → Option (GoString × List Byte)
  | [] => none
  | line :: rest =>
      if line.length = 5 ∧ line.head? = some StdPadding then
        (readChecksum blockType line rest).map (fun crc => ([], crc))
      else if armorEnd.isPrefixOf line then none
      else if 96 < line.length then none
      else (readBody blockType rest).map (fun r => (line ++ r.1, r.2))

/-- Modelled from the spec: `armor.Decode` of the openpgp armor package (the
repository only encodes), read to the end of the body: the inverse the spec
names in `decode(encode(B)) == B`. The text is cut into lines; the begin marker
gives the block type, header lines run to the first empty line, body lines run
to the checksum line, the body is the base64 decoding of the joined body lines,
and the block is refused unless the CRC-24 of the body is the checksum and the
end marker names the same type. -/
def armorDecode (text : GoString) : Option Block :=
  match splitOn 10 text with
  | [] => none
  | first :: rest => do
      let blockType ← parseArmorStart first
      let (headers, bodyLines) ← readHeaders rest
      let (b64, crc) ← readBody blockType bodyLines
      let body ← DecodeString b64
      if checksumBytes (crc24 crc24Init body) = crc then
        some { blockType := blockType, Header := headers, Body := body }
      else none

/-! ## `profile.go`: ASCII armor -/

/-- Source: `var KRYPTON_ASCII_ARMOR_HEADERS = map[string]string{"Comment": "Created with Krypton"}`. -/
def KRYPTON_ASCII_ARMOR_HEADERS : List (GoString × GoString) :=
  [(str "Comment", str "Created with Krypton")]

/-- Source: `func (p Profile) AsciiArmorPGPPublicKey() (s string, err error)`. -/
def Profile.AsciiArmorPGPPublicKey (p : Profile) : GoString × Option Error :=
  match p.PGPPublicKey with
  | none => ([], some (str "no pgp public key"))
  | some key =>
      (armorEncode (str "PGP PUBLIC KEY BLOCK") KRYPTON_ASCII_ARMOR_HEADERS key.bytes, none)

/-- The lines of the armored block of `data`: begin marker, comment header,
empty line, the wrapped base64 body, the checksum line, end marker. -/
def armorLines (data : List Byte) : List GoString :=
  [str "-----BEGIN PGP PUBLIC KEY BLOCK-----", str "Comment: Created with Krypton", []] ++
    wrapLines 64 (EncodeToString data) ++
    [StdPadding :: EncodeToString (checksumBytes (crc24 crc24Init data)),
      str "-----END PGP PUBLIC KEY BLOCK-----"]

/-- A profile with a three-byte PGP key field (no OpenPGP packet, which armoring does not need). -/
def armorSampleProfile : Profile :=
  { SSHWirePublicKey := .nil, Email := [], PGPPublicKey := some (.mk [1, 2, 3]) }

/-! ## `golang.org/x/crypto/openpgp/packet` -/

/-- A Go `[20]byte` array. -/
structure Bytes20 where
  elems : List Byte
  size_eq : elems.length = 20

/-- The values of the interface `packet.Packet` as far as the type switch of
`PGPPublicKeySHA1Fingerprint` tells them apart: a `*packet.PublicKey` with its
field `Fingerprint [20]byte`, or a packet of any other type. -/
inductive Packet where
  | PublicKey (Fingerprint : Bytes20)
  | Other

/-- The signature of `packet.Read(r)` on a `bytes.Reader`, whose state is the
sequence of unread bytes: a packet and the bytes left unread, or an error. -/
abbrev PacketRead := List Byte → Except Error (Packet × List Byte)

/-! ## `profile.go`: PGP fingerprint -/

/-- The `for` loop of `PGPPublicKeySHA1Fingerprint`, run for at most `fuel`
calls of `packet.Read`; `none` when the loop is still running after them. -/
def PGPPublicKeySHA1Fingerprint.loop (Read : PacketRead) :
    Nat → List Byte → Option (GoString × Option Error)
  | 0, _ => none
  | fuel + 1, reader =>
      match Read reader with
      | .error _ => some ([], some (str "no pgp public key packet found"))
      | .ok (.PublicKey fingerprint, _) => some (hexEncodeToString fingerprint.elems, none)
      | .ok (.Other, reader) => PGPPublicKeySHA1Fingerprint.loop Read fuel reader

/-- Source: `func (p Profile) PGPPublicKeySHA1Fingerprint() (s string, err error)`. -/
def Profile.PGPPublicKeySHA1Fingerprint (Read : PacketRead) (fuel : Nat) (p : Profile) :
    Option (GoString × Option Error) :=
  match p.PGPPublicKey with
  | none => some ([], some (str "no pgp public key"))
  | some key => PGPPublicKeySHA1Fingerprint.loop Read fuel key.bytes

/-- The reader after `n` calls of `Read` that each returned a packet of another
type than `*packet.PublicKey`; `none` when one of the calls did not. -/
def skipOthers (Read : PacketRead) : Nat → List Byte → Option (List Byte)
  | 0, reader => some reader
  | n + 1, reader =>
      match Read reader with
      | .ok (.Other, reader) => skipOthers Read n reader
      | _ => none

/-- The bytes `enc` are an encoding of `pkt` for `Read`: in front of any further bytes,
`Read` returns `pkt` and leaves exactly those bytes unread. -/
def Encodes (Read : PacketRead) (enc : List Byte) (pkt : Packet) : Prop :=
  ∀ rest : List Byte, Read (enc ++ rest) = .ok (pkt, rest)

/-! ### A reader for the packet framing -/

/-- The five chaining values of a SHA-1 digest. -/
structure Sha1State where
  h0 : Nat
  h1 : Nat
  h2 : Nat
  h3 : Nat
  h4 : Nat

/-- The function `bits.RotateLeft32(x, n)` on a 32-bit word. -/
def rotl32 (x n : Nat) : Nat := (x <<< n ||| x >>> (32 - n)) % 2 ^ 32

/-- One more word of the SHA-1 message schedule. -/
def sha1Extend (w : List Nat) : List Nat :=
  let i := w.length
  w ++ [rotl32 (w.getD (i - 3) 0 ^^^ w.getD (i - 8) 0 ^^^ w.getD (i - 14) 0 ^^^
    w.getD (i - 16) 0) 1]

/-- Round `i` of SHA-1 on the working variables, with schedule word `wi`. -/
def sha1Round (s : Sha1State) (iw : Nat × Nat) : Sha1State :=
  let i := iw.1
  let f :=
    if i < 20 then (s.h1 &&& s.h2) ||| (not32 s.h1 &&& s.h3)
    else if i < 40 then s.h1 ^^^ s.h2 ^^^ s.h3
    else if i < 60 then ((s.h1 ||| s.h2) &&& s.h3) ||| (s.h1 &&& s.h2)
    else s.h1 ^^^ s.h2 ^^^ s.h3
  let k :=
    if i < 20 then 0x5A827999 else if i < 40 then 0x6ED9EBA1
    else if i < 60 then 0x8F1BBCDC else 0xCA62C1D6
  { h0 := (rotl32 s.h0 5 + f + s.h4 + iw.2 + k) % 2 ^ 32, h1 := s.h0, h2 := rotl32 s.h1 30,
    h3 := s.h2, h4 := s.h3 }

/-- The SHA-1 compression of one 64-byte chunk. -/
def sha1Block (s : Sha1State) (chunk : List Byte) : Sha1State :=
  let w := Nat.iterate sha1Extend 64 (beWords chunk)
  let r := ((List.range 80).zip w).foldl sha1Round s
  { h0 := (s.h0 + r.h0) % 2 ^ 32, h1 := (s.h1 + r.h1) % 2 ^ 32, h2 := (s.h2 + r.h2) % 2 ^ 32,
    h3 := (s.h3 + r.h3) % 2 ^ 32, h4 := (s.h4 + r.h4) % 2 ^ 32 }

/-- SHA-1 over whole 64-byte chunks, `fuel` of them at most. -/
def sha1Blocks : Nat → Sha1State → List Byte → Sha1State
  | 0, s, _ => s
  | fuel + 1, s, msg =>
      if msg.length < 64 then s else sha1Blocks fuel (sha1Block s (msg.take 64)) (msg.drop 64)

/-- Modelled from the spec: the digest of the OpenPGP fingerprint algorithm,
SHA-1 (FIPS 180-4) as `crypto/sha1` computes it, 20 bytes. -/
def sha1Sum (data : List Byte) : Bytes20 :=
  let msg := data ++ sha256Padding data.length
  let s := sha1Blocks msg.length
    { h0 := 0x67452301, h1 := 0xEFCDAB89, h2 := 0x98BADCFE, h3 := 0x10325476, h4 := 0xC3D2E1F0 }
    msg
  { elems := putUint32 s.h0 ++ putUint32 s.h1 ++ putUint32 s.h2 ++ putUint32 s.h3 ++
      putUint32 s.h4,
    size_eq := rfl }

/-- The body length announced by a packet header and the bytes after the
header: old format (one, two or four length octets) and new format (one, two or
five length octets); `none` for a cut-off header and for the indeterminate and
partial lengths, which this reader does not take. -/
def readLength (tagByte : Byte) (r : List Byte) : Option (Nat × List Byte) :=
  if tagByte &&& 0x40 = 0 then
    match tagByte &&& 3, r with
    | 0, a :: r => some (a.toNat, r)
    | 1, a :: b :: r => some (a.toNat <<< 8 ||| b.toNat, r)
    | 2, a :: b :: c :: d :: r =>
        some (a.toNat <<< 24 ||| b.toNat <<< 16 ||| c.toNat <<< 8 ||| d.toNat, r)
    | _, _ => none
  else
    match r with
    | [] => none
    | a :: r =>
        if a < 192 then some (a.toNat, r)
        else if a < 224 then
          match r with
          | b :: r => some ((a.toNat - 192) <<< 8 + b.toNat + 192, r)
          | [] => none
        else if a = 255 then
          match r with
          | b :: c :: d :: e :: r =>
              some (b.toNat <<< 24 ||| c.toNat <<< 16 ||| d.toNat <<< 8 ||| e.toNat, r)
          | _ => none
        else none

/-- The packet tag of a header octet (bits 5-2 in the old format, bits 5-0 in the new). -/
def packetTag (tagByte : Byte) : Nat :=
  if tagByte &&& 0x40 = 0 then ((tagByte &&& 0x3f) >>> 2).toNat else (tagByte &&& 0x3f).toNat

/-- The type `parsedMPI` of the packet package: the bytes of a multiprecision
integer and the bit length that was announced for them. -/
structure parsedMPI where
  bytes : List Byte
  bitLength : Nat
deriving DecidableEq

/-- The function `readMPI(r)` of the packet package: two octets of bit length,
then `(bitLength + 7) / 8` bytes, which are not inspected; `none` when the
reader ends before that (`unexpected EOF`). -/
def readMPI : List Byte → Option (parsedMPI × List Byte)
  | a :: b :: r =>
      let bitLength := a.toNat <<< 8 ||| b.toNat
      let numBytes := (bitLength + 7) / 8
      if r.length < numBytes then none
      else some ({ bytes := r.take numBytes, bitLength := bitLength }, r.drop numBytes)
  | _ => none

/-- As many calls of `readMPI` in a row as the key material has integers. -/
def readMPIs : Nat → List Byte → Option (List parsedMPI × List Byte)
  | 0, r => some ([], r)
  | k + 1, r =>
      match readMPI r with
      | none => none
      | some (m, r) =>
          match readMPIs k r with
          | none => none
          | some (ms, r) => some (m :: ms, r)

/-- An integer as `readMPI` returns it: the bit length is a 16-bit number and
there are `(bitLength + 7) / 8` bytes. -/
def parsedMPI.wellFormed (m : parsedMPI) : Prop :=
  m.bitLength < 65536 ∧ m.bytes.length = (m.bitLength + 7) / 8

/-- The function `writeMPI(w, bitLength, mpiBytes)` of the packet package. -/
def writeMPI (m : parsedMPI) : List Byte :=
  UInt8.ofNat (m.bitLength >>> 8) :: UInt8.ofNat m.bitLength :: m.bytes

/-- The method `setFingerPrintAndKeyId` of `*packet.PublicKey`: SHA-1 over the
signature prefix (`0x99` and the 16-bit length of what follows) and the key
serialized without its packet header, which is the six octets `buf` that the
parse read (version 4, creation time, algorithm) and the integers as they were
read. -/
def setFingerPrintAndKeyId (buf : List Byte) (mpis : List parsedMPI) : Bytes20 :=
  let pLength := (mpis.map (fun m => 2 + m.bytes.length)).sum + 6
  sha1Sum (0x99 :: UInt8.ofNat (pLength >>> 8) :: UInt8.ofNat pLength ::
    (buf ++ (mpis.map writeMPI).flatten))

/-- The function `strconv.Itoa` on the values of a byte. -/
def Itoa (n : Nat) : GoString :=
  if n < 10 then [UInt8.ofNat (48 + n)]
  else if n < 100 then [UInt8.ofNat (48 + n / 10), UInt8.ofNat (48 + n % 10)]
  else [UInt8.ofNat (48 + n / 100), UInt8.ofNat (48 + n / 10 % 10), UInt8.ofNat (48 + n % 10)]

/-- The error of this reader for a packet that the packet package reads with
code that is not modelled here (see `packetRead`). -/
def errNotModelled : Error := str "packet kind outside the modelled part of the packet package"

/-- The method `parseRSA` of `*packet.PublicKey`: n and e, the exponent of
three bytes at most. -/
def parseRSA (r : List Byte) : Except Error (List parsedMPI) :=
  match readMPI r with
  | none => .error (str "unexpected EOF")
  | some (n, r) =>
      match readMPI r with
      | none => .error (str "unexpected EOF")
      | some (e, _) =>
          if 3 < e.bytes.length then
            .error (str "openpgp: unsupported feature: large public exponent")
          else .ok [n, e]

/-- The methods `parseDSA` (p, q, g, y: four integers) and `parseElGamal`
(p, g, y: three integers) of `*packet.PublicKey`, which read their integers one
after the other and check nothing. -/
def parseIntegers (count : Nat) (r : List Byte) : Except Error (List parsedMPI) :=
  match readMPIs count r with
  | none => .error (str "unexpected EOF")
  | some (mpis, _) => .ok mpis

/-- The method `parse` of `*packet.PublicKey` on the contents of a key packet,
giving the field `Fingerprint`: six octets (the version, which must be 4, the
creation time and the algorithm), then the key material of the algorithm: RSA
(1, 2, 3), DSA (17) or ElGamal (16). -/
def parsePublicKey (contents : List Byte) : Except Error Bytes20 :=
  if contents.length < 6 then .error (str "unexpected EOF")
  else
    let buf := contents.take 6
    let r := contents.drop 6
    let PubKeyAlgo := buf.getD 5 0
    if buf.getD 0 0 ≠ 4 then .error (str "openpgp: unsupported feature: public key version")
    else
      let material :=
        if PubKeyAlgo = 1 ∨ PubKeyAlgo = 2 ∨ PubKeyAlgo = 3 then parseRSA r
        else if PubKeyAlgo = 17 then parseIntegers 4 r
        else if PubKeyAlgo = 16 then parseIntegers 3 r
        else if PubKeyAlgo = 18 ∨ PubKeyAlgo = 19 then .error errNotModelled
        else
          .error (str "openpgp: unsupported feature: public key type: " ++ Itoa PubKeyAlgo.toNat)
      match material with
      | .error err => .error err
      | .ok mpis => .ok (setFingerPrintAndKeyId buf mpis)

/-- The method `parseRSA` of `*packet.PublicKeyV3`: n, of eight bytes at least,
and e, of three bytes at most. -/
def parseRSAV3 (r : List Byte) : Except Error Unit :=
  match readMPI r with
  | none => .error (str "unexpected EOF")
  | some (n, r) =>
      match readMPI r with
      | none => .error (str "unexpected EOF")
      | some (e, _) =>
          if n.bytes.length < 8 then
            .error (str "openpgp: invalid data: v3 public key modulus is too short")
          else if 3 < e.bytes.length then
            .error (str "openpgp: unsupported feature: large public exponent")
          else .ok ()

/-- The method `parse` of `*packet.PublicKeyV3` on the contents of a key packet:
eight octets (the version, which must be 2 or 3, the creation time, the days
to expiry and the algorithm, which must be RSA), then the key material. -/
def parsePublicKeyV3 (contents : List Byte) : Except Error Unit :=
  if contents.length < 8 then .error (str "unexpected EOF")
  else
    let buf := contents.take 8
    let PubKeyAlgo := buf.getD 7 0
    if buf.getD 0 0 < 2 ∨ 3 < buf.getD 0 0 then
      .error (str "openpgp: unsupported feature: public key version")
    else if PubKeyAlgo = 1 ∨ PubKeyAlgo = 2 ∨ PubKeyAlgo = 3 then parseRSAV3 (contents.drop 8)
    else .error (str "openpgp: unsupported feature: public key type: " ++ Itoa PubKeyAlgo.toNat)

/-- The packet tags that `packet.Read` knows besides the User ID packet and the
two public-key packets: encrypted key, signature, symmetric-key encrypted,
one-pass signature, private key, private subkey, compressed data, symmetrically
encrypted data, literal data, user attribute, encrypted data with MDC. -/
def otherKnownTags : List Nat := [1, 2, 3, 4, 5, 7, 8, 9, 11, 17, 18]

/-- The `switch tag` of `packet.Read` and the `parse` of the packet it selects,
on a packet whose header announced `length` bytes of contents, `r` being the
bytes after the header. The result is the packet and the bytes left unread. -/
def readContents (tag length : Nat) (r : List Byte) : Except Error (Packet × List Byte) :=
  if tag = 13 then
    if r.length < length then .error (str "unexpected EOF") else .ok (.Other, r.drop length)
  else if tag = 6 ∨ tag = 14 then
    if 4096 < length then .error errNotModelled
    else
      match r.take length with
      | [] => .error (if length = 0 then str "EOF" else str "unexpected EOF")
      | version :: contents =>
          if version < 4 then
            match parsePublicKeyV3 (version :: contents) with
            | .error err => .error err
            | .ok _ => .ok (.Other, r.drop length)
          else
            match parsePublicKey (version :: contents) with
            | .error err => .error err
            | .ok fingerprint => .ok (.PublicKey fingerprint, r.drop length)
  else if otherKnownTags.contains tag then .error errNotModelled
  else .error (str "openpgp: unknown packet type: " ++ Itoa tag)

/-- Modelled from the spec: `packet.Read` of the openpgp packet package
(`golang.org/x/crypto/openpgp/packet`), which is not among the source files.
The spec says only that each packet is framed by a tag and length header and
that a public-key packet has a fingerprint under the OpenPGP fingerprint
algorithm; which packets the function returns as `*packet.PublicKey` is the
package's doing, so the model follows the package step by step:

* `readHeader`: an empty reader is `EOF`; the first octet must have its top
  bit set; the tag and the length octets are those of the old and the new
  packet format (`packetTag`, `readLength`); a header that is cut off is
  `unexpected EOF`.
* Tag 13 (User ID): `parse` reads all the contents, so the packet is of
  another type than `*packet.PublicKey` when its contents are all there and
  `unexpected EOF` when they are not.
* Tags 6 (Public-Key) and 14 (Public-Subkey) alike: `peekVersion` looks at the
  first octet of the contents through a buffered reader, which takes up to
  4096 bytes of the contents from the stream at once. A version below 4 makes
  the packet a `*packet.PublicKeyV3`, a type that the loop of
  `PGPPublicKeySHA1Fingerprint` passes over; any other version makes it a
  `*packet.PublicKey`, whose `parse` accepts version 4 only, reads the
  integers of an RSA, ElGamal or DSA key and sets `Fingerprint` from what it
  read (`parsePublicKey`, `setFingerPrintAndKeyId`). An EdDSA key (algorithm
  22) is an `unsupported feature` error like every algorithm the package does
  not know.
* A tag outside the package's `switch` is an `unknown packet type` error.

Limits of the model, where it returns an error though the package may return
a packet: the indeterminate and the partial body lengths (`readLength`), key
packets that announce more than 4096 bytes of contents (the buffered reader
then takes the contents in several pieces), the elliptic-curve algorithms 18
and 19 (their parse checks the point against the curve), and the packet kinds
of `otherKnownTags` (`errNotModelled`). -/
def packetRead : PacketRead
  | [] => .error (str "EOF")
  | tagByte :: r =>
      if tagByte &&& 0x80 = 0 then
        .error (str "openpgp: invalid data: tag byte does not have MSB set")
      else
        match readLength tagByte r with
        | none => .error (str "unexpected EOF")
        | some (length, r) => readContents (packetTag tagByte) length r

/-- A User ID packet (tag 13, new format) holding the one character `a`. -/
def sampleUserID : List Byte := [0xCD, 0x01, 0x61]

/-- A version 4 Public-Key packet (tag 6, old format, 21 bytes of contents):
creation time, algorithm 1 (RSA), a modulus of 64 bits and the exponent 65537. -/
def samplePublicKeyPacket : List Byte :=
  [0x98, 21, 4, 95, 94, 16, 0, 1, 0, 64, 0xC5, 0x3A, 0x91, 0x0E, 0x77, 0x42, 0xD8, 0x6B,
    0, 17, 1, 0, 1]

/-- A version 4 Public-Subkey packet (tag 14, old format, 21 bytes of contents):
creation time, algorithm 2 (RSA, encryption only), a modulus of 64 bits and the
exponent 65537. -/
def sampleSubkeyPacket : List Byte :=
  [0xB8, 21, 4, 95, 94, 16, 9, 2, 0, 64, 0xE1, 0x05, 0x4C, 0xB3, 0x29, 0x6F, 0x80, 0x1D,
    0, 17, 1, 0, 1]

/-- A version 3 Public-Key packet (tag 6, old format, 23 bytes of contents):
creation time, no expiry, algorithm 1 (RSA), a modulus of 64 bits and the
exponent 65537. -/
def sampleV3KeyPacket : List Byte :=
  [0x98, 23, 3, 52, 18, 200, 7, 0, 0, 1, 0, 64, 0xA9, 0x13, 0x5E, 0xF0, 0x24, 0x8B, 0x6D, 0x37,
    0, 17, 1, 0, 1]

/-- A version 4 Public-Key packet whose algorithm is 22 (EdDSA), which the
package does not support. -/
def sampleEdDSAKeyPacket : List Byte :=
  [0x98, 51, 4, 95, 94, 16, 0, 22, 9, 43, 6, 1, 4, 1, 218, 71, 15, 1, 1, 7, 64,
    1, 2, 3, 4, 5, 6, 7, 8, 9, 10, 11, 12, 13, 14, 15, 16, 17, 18, 19, 20, 21, 22, 23, 24,
    25, 26, 27, 28, 29, 30, 31, 32]

/-- A profile whose PGP key is a User ID packet, a version 3 Public-Key packet,
the sample version 4 Public-Key packet, and the sample Public-Subkey packet
after it. -/
def pgpSampleProfile : Profile :=
  { SSHWirePublicKey := .nil, Email := [],
    PGPPublicKey :=
      some (.mk (sampleUserID ++ sampleV3KeyPacket ++ samplePublicKeyPacket ++
        sampleSubkeyPacket)) }

/-- A profile with the given bytes as PGP key and nothing else. -/
def pgpProfile (key : List Byte) : Profile :=
  { SSHWirePublicKey := .nil, Email := [], PGPPublicKey := some (.mk key) }

/-- The fingerprint of the sample Public-Key packet: that of the six octets and
the two integers of its contents, which is SHA-1 over `0x99`, the two-octet
length 21 and the contents. -/
def sampleFingerprint : Bytes20 :=
  setFingerPrintAndKeyId [4, 95, 94, 16, 0, 1]
    [{ bytes := [0xC5, 0x3A, 0x91, 0x0E, 0x77, 0x42, 0xD8, 0x6B], bitLength := 64 },
      { bytes := [1, 0, 1], bitLength := 17 }]

/-- The fingerprint of the sample Public-Subkey packet: that of the six octets
and the two integers of its contents. -/
def sampleSubkeyFingerprint : Bytes20 :=
  setFingerPrintAndKeyId [4, 95, 94, 16, 9, 2]
    [{ bytes := [0xE1, 0x05, 0x4C, 0xB3, 0x29, 0x6F, 0x80, 0x1D], bitLength := 64 },
      { bytes := [1, 0, 1], bitLength := 17 }]

/-! ## `github.com/blang/semver` -/

/-- One pre-release identifier, the struct `semver.PRVersion`: a number or a text. -/
structure PRVersion where
  VersionStr : GoString
  VersionNum : Nat
  IsNum : Bool
deriving DecidableEq

/-- The struct `semver.Version`; the numbers are `uint64` fields. -/
structure Version where
  Major : Nat
  Minor : Nat
  Patch : Nat
  Pre : List PRVersion
  Build : List GoString
deriving DecidableEq

/-- The zero value `Version{}`, which a named result holds until it is assigned. -/
def Version.zero : Version := { Major := 0, Minor := 0, Patch := 0, Pre := [], Build := [] }

/-- The signature of `semver.Make` (and of `semver.Parse`): the version and a nil error, or an error. -/
abbrev SemverMake := GoString → Version × Option Error

/-- The digits. -/
def numbers : GoString := str "0123456789"

/-- The letters, the hyphen and the digits. -/
def alphanum : GoString :=
  str "abcdefghijklmnopqrstuvwxyzABCDEFGHIJKLMNOPQRSTUVWXYZ-" ++ numbers

/-- Whether every character of `s` is in `set`. -/
def containsOnly (s set : GoString) : Bool := s.all (fun c => set.contains c)

/-- Whether `s` has more than one character and starts with `0`. -/
def hasLeadingZeroes (s : GoString) : Bool := decide (1 < s.length) && s.head? == some 48

/-- The text `s` between double quotes, the rendering of `%q` for text without
characters that Go would escape. -/
def quoted (s : GoString) : GoString := str "\"" ++ s ++ str "\""

/-- The value of a decimal digit string. -/
def decimalValue (s : GoString) : Nat := s.foldl (fun n c => 10 * n + (c.toNat - 48)) 0

/-- Modelled from the spec: the numeric fields of a semantic version, read as
`strconv.ParseUint(s, 10, 64)` reads them: the text must be a non-empty digit
string whose value fits a `uint64`. -/
def parseUint (s : GoString) : Except Error Nat :=
  if s = [] ∨ containsOnly s numbers = false then
    .error (str "strconv.ParseUint: parsing " ++ quoted s ++ str ": invalid syntax")
  else if 2 ^ 64 ≤ decimalValue s then
    .error (str "strconv.ParseUint: parsing " ++ quoted s ++ str ": value out of range")
  else .ok (decimalValue s)

/-- The text before and the text after the first occurrence of `sep`, if there is one. -/
def cutAt (sep : Byte) : GoString → Option (GoString × GoString)
  | [] => none
  | c :: rest =>
      if c = sep then some ([], rest)
      else (cutAt sep rest).map (fun ba => (c :: ba.1, ba.2))

/-- The pieces of `strings.SplitN(s, ".", 3)`: cut at the first two dots. -/
def splitN3 (s : GoString) : List GoString :=
  match cutAt 46 s with
  | none => [s]
  | some (a, rest) =>
      match cutAt 46 rest with
      | none => [a, rest]
      | some (b, c) => [a, b, c]

/-- One number of `major.minor.patch`: digits only, no leading zero, a `uint64`.
`name` and `Name` are the words used in the two error texts. -/
def parseNumber (name Name s : GoString) : Except Error Nat :=
  if containsOnly s numbers = false then
    .error (str "Invalid character(s) found in " ++ name ++ str " number " ++ quoted s)
  else if hasLeadingZeroes s then
    .error (Name ++ str " number must not contain leading zeroes " ++ quoted s)
  else parseUint s

/-- Modelled from the spec: one pre-release identifier, as `semver.NewPRVersion`
reads it: not empty; a digit string is a number and must have no leading zero;
any other text of letters, digits and hyphens is kept as text. -/
def NewPRVersion (s : GoString) : Except Error PRVersion :=
  if s.length = 0 then .error (str "Prerelease is empty")
  else if containsOnly s numbers then
    if hasLeadingZeroes s then
      .error (str "Numeric PreRelease version must not contain leading zeroes " ++ quoted s)
    else
      match parseUint s with
      | .error err => .error err
      | .ok num => .ok { VersionStr := [], VersionNum := num, IsNum := true }
  else if containsOnly s alphanum then .ok { VersionStr := s, VersionNum := 0, IsNum := false }
  else .error (str "Invalid character(s) found in prerelease " ++ quoted s)

/-- One build identifier: not empty, letters, digits and hyphens only. -/
def parseBuild (s : GoString) : Except Error GoString :=
  if s.length = 0 then .error (str "Build meta data is empty")
  else if containsOnly s alphanum = false then
    .error (str "Invalid character(s) found in build meta data " ++ quoted s)
  else .ok s

/-- The steps of `semver.Parse` with its error returns as exceptions. -/
def parseVersion (s : GoString) : Except Error Version :=
  if s.length = 0 then .error (str "Version string empty")
  else
    match splitN3 s with
    | [major, minor, rest] => do
        let major ← parseNumber (str "major") (str "Major") major
        let minor ← parseNumber (str "minor") (str "Minor") minor
        let (patchStr, build) :=
          match cutAt 43 rest with
          | some (a, b) => (a, splitOn 46 b)
          | none => (rest, [])
        let (patchStr, prerelease) :=
          match cutAt 45 patchStr with
          | some (a, b) => (a, splitOn 46 b)
          | none => (patchStr, [])
        let patch ← parseNumber (str "patch") (str "Patch") patchStr
        let pre ← prerelease.mapM NewPRVersion
        let build ← build.mapM parseBuild
        .ok { Major := major, Minor := minor, Patch := patch, Pre := pre, Build := build }
    | _ => .error (str "No Major.Minor.Patch elements found")

/-- Modelled from the spec: `semver.Make` of the semver package (the same
function as `semver.Parse`), which is not among the source files: the text
must be `major.minor.patch` with an optional `-` and dot-separated pre-release
identifiers and an optional `+` and dot-separated build identifiers, as the
semantic-versioning grammar has it; the three numbers and the numeric
pre-release identifiers are `uint64` values. A text that is refused gives the
zero version and an error. -/
def semverMake : SemverMake := fun s =>
  match parseVersion s with
  | .ok v => (v, none)
  | .error err => (Version.zero, some err)

/-- Modelled from the spec: `semver.MustParse`, which panics where the parser
returns an error; `none` is the panic. -/
def MustParse (Parse : SemverMake) (s : GoString) : Option Version :=
  match Parse s with
  | (v, none) => some v
  | (_, some _) => none

/-- Whether `a` comes before `b` in the byte-wise order of Go strings. -/
def stringLess : GoString → GoString → Bool
  | [], [] => false
  | [], _ :: _ => true
  | _ :: _, [] => false
  | a :: as, b :: bs => if a < b then true else if b < a then false else stringLess as bs

/-- Modelled from the spec: the precedence of two pre-release identifiers,
`PRVersion.Compare`: numbers come before texts, numbers compare by value,
texts by the string order. -/
def PRVersion.Compare (v o : PRVersion) : Int :=
  if v.IsNum && !o.IsNum then -1
  else if !v.IsNum && o.IsNum then 1
  else if v.IsNum && o.IsNum then
    if v.VersionNum = o.VersionNum then 0 else if o.VersionNum < v.VersionNum then 1 else -1
  else
    if v.VersionStr = o.VersionStr then 0
    else if stringLess o.VersionStr v.VersionStr then 1 else -1

/-- The loop of `Version.Compare` over the pre-release identifiers and the
comparison of the lengths after it. -/
def comparePre : List PRVersion → List PRVersion → Int
  | [], [] => 0
  | [], _ :: _ => -1
  | _ :: _, [] => 1
  | a :: as, b :: bs =>
      if a.Compare b = 0 then comparePre as bs else if a.Compare b = 1 then 1 else -1

/-- Modelled from the spec: the total order of semantic versions,
`Version.Compare`: major, minor and patch first; a version without
pre-release comes after one with; otherwise pre-release precedence. Build
identifiers do not count. The result is -1, 0 or 1. -/
def Version.Compare (v o : Version) : Int :=
  if v.Major ≠ o.Major then (if o.Major < v.Major then 1 else -1)
  else if v.Minor ≠ o.Minor then (if o.Minor < v.Minor then 1 else -1)
  else if v.Patch ≠ o.Patch then (if o.Patch < v.Patch then 1 else -1)
  else if v.Pre.length = 0 ∧ o.Pre.length = 0 then 0
  else if v.Pre.length = 0 ∧ 0 < o.Pre.length then 1
  else if 0 < v.Pre.length ∧ o.Pre.length = 0 then -1
  else comparePre v.Pre o.Pre

/-- The method `GT`: `v.Compare(o) == 1`. -/
def Version.GT (v o : Version) : Bool := decide (v.Compare o = 1)

/-! ## `version_linux.go` -/

/-- Modelled from the spec: the per-platform manifest `Versions`, whose
declaration is not among the source files: the entry of the Linux channel,
which is the field the source reads, and the entries of the other platforms by
name. -/
structure Versions where
  Linux : GoString
  others : List (GoString × GoString)
deriving DecidableEq

/-- Source: `var CURRENT_VERSION = semver.MustParse("2.1.0")`; `none` would be
the panic of `MustParse` at initialisation. -/
def CURRENT_VERSION (Parse : SemverMake) : Option Version := MustParse Parse (str "2.1.0")

/-- Source: `func GetLatestVersion() (version semver.Version, err error)`. The
argument `GetLatestVersions` is what the call of the fetch collaborator of that
name returned. -/
def GetLatestVersion (Make : SemverMake) (GetLatestVersions : Versions × Option Error) :
    Version × Option Error :=
  match GetLatestVersions with
  | (_, some err) => (Version.zero, some err)
  | (versions, none) => Make versions.Linux

/-- Source: `func GetCachedLatestVersion() (version semver.Version, err error)`.
The argument `GetCachedLatestVersions` is what the call of the cache-read
collaborator of that name returned. -/
def GetCachedLatestVersion (Make : SemverMake)
    (GetCachedLatestVersions : Versions × Option Error) : Version × Option Error :=
  match GetCachedLatestVersions with
  | (_, some err) => (Version.zero, some err)
  | (versions, none) => Make versions.Linux

/-- A manifest whose Linux entry is `2.1.0` while other platforms are ahead. -/
def sampleVersions : Versions :=
  { Linux := str "2.1.0", others := [(str "osx", str "2.4.1"), (str "iOS", str "not a version")] }

/-- A manifest whose Linux entry lacks the patch number while another platform has `2.1.0`. -/
def badLinuxVersions : Versions :=
  { Linux := str "2.1", others := [(str "osx", str "2.1.0")] }

/-! ## The semantic-versioning grammar

The Backus-Naur grammar of Semantic Versioning 2.0.0 for `<valid semver>`,
written down on its own and not taken from the parser, so that what
`semver.Make` accepts can be compared with it. -/

/-- A digit `0` to `9`. -/
def isDigit (c : Byte) : Bool := decide (48 ≤ c.toNat) && decide (c.toNat ≤ 57)

/-- A positive digit `1` to `9`. -/
def isPositiveDigit (c : Byte) : Bool := decide (49 ≤ c.toNat) && decide (c.toNat ≤ 57)

/-- A letter `A` to `Z` or `a` to `z`. -/
def isLetter (c : Byte) : Bool :=
  (decide (65 ≤ c.toNat) && decide (c.toNat ≤ 90)) ||
    (decide (97 ≤ c.toNat) && decide (c.toNat ≤ 122))

/-- A non-digit of the grammar: a letter or the hyphen. -/
def isNonDigit (c : Byte) : Bool := isLetter c || c == 45

/-- An identifier character of the grammar: a digit or a non-digit. -/
def isIdentifierCharacter (c : Byte) : Bool := isDigit c || isNonDigit c

/-- The rule `<numeric identifier> ::= "0" | <positive digit> | <positive digit> <digits>`. -/
def isNumericIdentifier : GoString → Bool
  | [] => false
  | [c] => isDigit c
  | c :: rest => isPositiveDigit c && rest.all isDigit

/-- The rule `<alphanumeric identifier>`: identifier characters with at least one non-digit. -/
def isAlphanumericIdentifier (s : GoString) : Bool :=
  s.all isIdentifierCharacter && s.any isNonDigit

/-- The rule `<pre-release identifier> ::= <alphanumeric identifier> | <numeric identifier>`. -/
def isPreReleaseIdentifier (s : GoString) : Bool :=
  isAlphanumericIdentifier s || isNumericIdentifier s

/-- The rule `<build identifier> ::= <alphanumeric identifier> | <digits>`. -/
def isBuildIdentifier (s : GoString) : Bool :=
  isAlphanumericIdentifier s || (!s.isEmpty && s.all isDigit)

/-- Identifiers joined by dots. -/
def dotSeparated (ids : List GoString) : GoString := [(46 : Byte)].intercalate ids

/-- The parts of a text of the form `<valid semver>`: the three numeric
identifiers of the version core, the pre-release identifiers and the build
identifiers; an empty list stands for a part that is absent. -/
structure SemVerText where
  major : GoString
  minor : GoString
  patch : GoString
  preRelease : List GoString
  build : List GoString

/-- The text of the parts: `major.minor.patch`, then `-` and the dot-separated
pre-release identifiers if there are any, then `+` and the dot-separated build
identifiers if there are any. -/
def SemVerText.render (t : SemVerText) : GoString :=
  t.major ++ 46 :: t.minor ++ 46 :: t.patch ++
    (if t.preRelease = [] then [] else 45 :: dotSeparated t.preRelease) ++
    (if t.build = [] then [] else 43 :: dotSeparated t.build)

/-- Every part is an identifier of its kind. -/
def SemVerText.valid (t : SemVerText) : Bool :=
  isNumericIdentifier t.major && isNumericIdentifier t.minor && isNumericIdentifier t.patch &&
    t.preRelease.all isPreReleaseIdentifier && t.build.all isBuildIdentifier

/-- The rule `<valid semver>` of Semantic Versioning 2.0.0: the text is the
rendering of parts that are identifiers of their kinds. -/
def ConformsToSemVer (s : GoString) : Prop :=
  ∃ t : SemVerText, t.valid = true ∧ t.render = s

/-- Every numeric identifier of the parts (major, minor, patch and the numeric
pre-release identifiers) has a value below `2 ^ 64`, the range of `uint64`. -/
def SemVerText.fitsUint64 (t : SemVerText) : Bool :=
  decide (decimalValue t.major < 2 ^ 64) && decide (decimalValue t.minor < 2 ^ 64) &&
    decide (decimalValue t.patch < 2 ^ 64) &&
    t.preRelease.all (fun p => !isNumericIdentifier p || decide (decimalValue p < 2 ^ 64))

/-- The pre-release identifier a text stands for: its number if it is a numeric
identifier, the text itself otherwise. -/
def preReleaseOf (p : GoString) : PRVersion :=
  if isNumericIdentifier p then { VersionStr := [], VersionNum := decimalValue p, IsNum := true }
  else { VersionStr := p, VersionNum := 0, IsNum := false }

/-- The version the parts stand for. -/
def SemVerText.version (t : SemVerText) : Version :=
  { Major := decimalValue t.major, Minor := decimalValue t.minor, Patch := decimalValue t.patch,
    Pre := t.preRelease.map preReleaseOf, Build := t.build }

/-- The step of `semver.Parse` that cuts the third part at its first `+`: the
text before it, and the build identifiers after it. -/
def cutBuild (rest : GoString) : GoString × List GoString :=
  match cutAt 43 rest with
  | some (a, b) => (a, splitOn 46 b)
  | none => (rest, [])

/-- The step of `semver.Parse` that cuts what is left at its first `-`: the
text of the patch number, and the pre-release identifiers after it. -/
def cutPreRelease (patchStr : GoString) : GoString × List GoString :=
  match cutAt 45 patchStr with
  | some (a, b) => (a, splitOn 46 b)
  | none => (patchStr, [])

/-- A manifest whose Linux entry has pre-release and build identifiers. -/
def preReleaseVersions : Versions :=
  { Linux := str "1.2.3-rc.1+build.05", others := [(str "osx", str "2.1.0")] }

/-- A manifest whose Linux entry has the major number 2^64. -/
def hugeMajorVersions : Versions :=
  { Linux := str "18446744073709551616.0.0", others := [] }

/-! ## Auxiliary lemmas -/

theorem str_space : str " " = [32] := by decide
theorem str_empty : str "" = [] := by decide

theorem replace_scan_space (s : GoString) :
    Replace.scan [32] [] 0 s = s.filter (fun b => b != 32) := by
  induction s with
  | nil => rfl
  | cons c rest ih =>
      by_cases h : c = 32
      · subst h
        simp [Replace.scan, ih, List.isPrefixOf]
      · have h' : ¬ (32 : Byte) = c := fun e => h e.symm
        simp [Replace.scan, ih, List.isPrefixOf, h, h']

theorem replace_space (s : GoString) :
    Replace s (str " ") (str "") = s.filter (fun b => b != 32) := by
  rw [str_space, str_empty]
  simp [Replace, replace_scan_space]

theorem encodeStdAt_ne_pad : ∀ i < 64, encodeStdAt i ≠ StdPadding := by decide
theorem decode_encodeStdAt : ∀ i < 64, decodeStdAt (encodeStdAt i) = some i := by decide


theorem shl_or (x y k : Nat) (h : y < 2 ^ k) : x <<< k ||| y = x * 2 ^ k + y := by
  rw [Nat.shiftLeft_eq, Nat.mul_comm, Nat.mul_add_lt_is_or h]

theorem and_0x3F (x : Nat) : x &&& 0x3F = x % 64 := Nat.and_pow_two_sub_one_eq_mod x 6

theorem and_0x0f (x : Nat) : x &&& 0x0f = x % 16 := Nat.and_pow_two_sub_one_eq_mod x 4

theorem pack3 (a b c : Nat) (hb : b < 256) (hc : c < 256) :
    a <<< 16 ||| b <<< 8 ||| c = a * 65536 + b * 256 + c := by
  rw [Nat.or_assoc, shl_or b c 8 (by omega), shl_or a _ 16 (by omega)]
  omega

theorem pack2 (a b : Nat) (hb : b < 256) :
    a <<< 16 ||| b <<< 8 = a * 65536 + b * 256 := by
  have h := pack3 a b 0 hb (by omega)
  simpa using h

theorem pack4 (x0 x1 x2 x3 : Nat) (h1 : x1 < 64) (h2 : x2 < 64) (h3 : x3 < 64) :
    x0 <<< 18 ||| x1 <<< 12 ||| x2 <<< 6 ||| x3 = x0 * 262144 + x1 * 4096 + x2 * 64 + x3 := by
  rw [Nat.or_assoc, Nat.or_assoc, shl_or x2 x3 6 (by omega), shl_or x1 _ 12 (by omega),
    shl_or x0 _ 18 (by omega)]
  omega

theorem ofNat_eq_of_mod (b : Byte) (n : Nat) (h : n % 256 = b.toNat) : UInt8.ofNat n = b := by
  apply UInt8.ext
  rw [← h]
  exact UInt8.toNat_ofNat n

theorem decodeQuantum_full (a b c : Byte) (last : Bool) :
    decodeQuantum
      (encodeStdAt ((a.toNat <<< 16 ||| b.toNat <<< 8 ||| c.toNat) >>> 18 &&& 0x3F))
      (encodeStdAt ((a.toNat <<< 16 ||| b.toNat <<< 8 ||| c.toNat) >>> 12 &&& 0x3F))
      (encodeStdAt ((a.toNat <<< 16 ||| b.toNat <<< 8 ||| c.toNat) >>> 6 &&& 0x3F))
      (encodeStdAt ((a.toNat <<< 16 ||| b.toNat <<< 8 ||| c.toNat) &&& 0x3F)) last
      = some [a, b, c] := by
  have ha := UInt8.toNat_lt a
  have hb := UInt8.toNat_lt b
  have hc := UInt8.toNat_lt c
  rw [pack3 _ _ _ (by omega) (by omega)]
  simp only [and_0x3F]
  generalize hv : a.toNat * 65536 + b.toNat * 256 + c.toNat = v
  have l0 : v >>> 18 % 64 < 64 := Nat.mod_lt _ (by decide)
  have l1 : v >>> 12 % 64 < 64 := Nat.mod_lt _ (by decide)
  have l2 : v >>> 6 % 64 < 64 := Nat.mod_lt _ (by decide)
  have l3 : v % 64 < 64 := Nat.mod_lt _ (by decide)
  unfold decodeQuantum
  rw [if_neg (encodeStdAt_ne_pad _ l3)]
  simp only [decode_encodeStdAt _ l0, decode_encodeStdAt _ l1, decode_encodeStdAt _ l2,
    decode_encodeStdAt _ l3, Option.bind_eq_bind, Option.some_bind]
  rw [pack4 _ _ _ _ l1 l2 l3]
  rw [ofNat_eq_of_mod a _ (by omega), ofNat_eq_of_mod b _ (by omega),
    ofNat_eq_of_mod c _ (by omega)]


theorem decodeQuantum_two (a b : Byte) :
    decodeQuantum
      (encodeStdAt ((a.toNat <<< 16 ||| b.toNat <<< 8) >>> 18 &&& 0x3F))
      (encodeStdAt ((a.toNat <<< 16 ||| b.toNat <<< 8) >>> 12 &&& 0x3F))
      (encodeStdAt ((a.toNat <<< 16 ||| b.toNat <<< 8) >>> 6 &&& 0x3F))
      StdPadding true = some [a, b] := by
  have ha := UInt8.toNat_lt a
  have hb := UInt8.toNat_lt b
  rw [pack2 _ _ (by omega)]
  simp only [and_0x3F]
  generalize hv : a.toNat * 65536 + b.toNat * 256 = v
  have l0 : v >>> 18 % 64 < 64 := Nat.mod_lt _ (by decide)
  have l1 : v >>> 12 % 64 < 64 := Nat.mod_lt _ (by decide)
  have l2 : v >>> 6 % 64 < 64 := Nat.mod_lt _ (by decide)
  unfold decodeQuantum
  rw [if_pos rfl, if_pos rfl, if_neg (encodeStdAt_ne_pad _ l2)]
  simp only [decode_encodeStdAt _ l0, decode_encodeStdAt _ l1, decode_encodeStdAt _ l2,
    Option.bind_eq_bind, Option.some_bind]
  have h4 := pack4 (v >>> 18 % 64) (v >>> 12 % 64) (v >>> 6 % 64) 0 l1 l2 (by omega)
  rw [Nat.or_zero] at h4
  rw [h4, ofNat_eq_of_mod a _ (by omega), ofNat_eq_of_mod b _ (by omega)]

theorem decodeQuantum_one (a : Byte) :
    decodeQuantum
      (encodeStdAt ((a.toNat <<< 16) >>> 18 &&& 0x3F))
      (encodeStdAt ((a.toNat <<< 16) >>> 12 &&& 0x3F))
      StdPadding StdPadding true = some [a] := by
  have ha := UInt8.toNat_lt a
  simp only [and_0x3F]
  generalize hv : a.toNat <<< 16 = v
  have l0 : v >>> 18 % 64 < 64 := Nat.mod_lt _ (by decide)
  have l1 : v >>> 12 % 64 < 64 := Nat.mod_lt _ (by decide)
  unfold decodeQuantum
  rw [if_pos rfl, if_pos rfl, if_pos rfl]
  simp only [decode_encodeStdAt _ l0, decode_encodeStdAt _ l1,
    Option.bind_eq_bind, Option.some_bind]
  rw [shl_or _ _ 18 (by omega), ofNat_eq_of_mod a _ (by omega)]

/-- Decoding the standard encoding of a byte sequence gives the sequence back. -/
theorem decodeString_encodeToString (bs : List Byte) :
    DecodeString (EncodeToString bs) = some bs := by
  induction bs using EncodeToString.induct with
  | case1 a b c rest ih =>
      simp only [EncodeToString, DecodeString]
      rw [decodeQuantum_full, ih]
      rfl
  | case2 a b =>
      simp only [EncodeToString, DecodeString, List.isEmpty]
      rw [decodeQuantum_two]
      rfl
  | case3 a =>
      simp only [EncodeToString, DecodeString, List.isEmpty]
      rw [decodeQuantum_one]
      rfl
  | case4 => rfl


theorem isStdChar_encodeStdAt : ∀ i < 64, isStdChar (encodeStdAt i) = true := by decide

theorem isStdChar_encodeToString (bs : List Byte) :
    ∀ c ∈ EncodeToString bs, isStdChar c = true := by
  have hm : ∀ x : Nat, x &&& 0x3F < 64 := fun x => by rw [and_0x3F]; exact Nat.mod_lt _ (by decide)
  induction bs using EncodeToString.induct with
  | case1 a b c rest ih =>
      simp only [EncodeToString, List.mem_cons]
      rintro x (h | h | h | h | h)
      · rw [h]; exact isStdChar_encodeStdAt _ (hm _)
      · rw [h]; exact isStdChar_encodeStdAt _ (hm _)
      · rw [h]; exact isStdChar_encodeStdAt _ (hm _)
      · rw [h]; exact isStdChar_encodeStdAt _ (hm _)
      · exact ih x h
  | case2 a b =>
      simp only [EncodeToString, List.mem_cons, List.mem_singleton]
      rintro x (h | h | h | h | h)
      · rw [h]; exact isStdChar_encodeStdAt _ (hm _)
      · rw [h]; exact isStdChar_encodeStdAt _ (hm _)
      · rw [h]; exact isStdChar_encodeStdAt _ (hm _)
      · rw [h]; decide
      · cases h
  | case3 a =>
      simp only [EncodeToString, List.mem_cons, List.mem_singleton]
      rintro x (h | h | h | h | h)
      · rw [h]; exact isStdChar_encodeStdAt _ (hm _)
      · rw [h]; exact isStdChar_encodeStdAt _ (hm _)
      · rw [h]; decide
      · rw [h]; decide
      · cases h
  | case4 => simp [EncodeToString]

theorem length_encodeToString (bs : List Byte) :
    (EncodeToString bs).length = 4 * ((bs.length + 2) / 3) := by
  induction bs using EncodeToString.induct with
  | case1 a b c rest ih =>
      simp only [EncodeToString, List.length_cons, ih]
      omega
  | case2 a b => simp [EncodeToString]
  | case3 a => simp [EncodeToString]
  | case4 => rfl


theorem splitOn_of_not_mem (sep : Byte) (b : GoString) (h : sep ∉ b) : splitOn sep b = [b] := by
  induction b with
  | nil => rfl
  | cons c rest ih =>
      have hc : c ≠ sep := fun e => h (by simp [e])
      have hr : sep ∉ rest := fun e => h (List.mem_cons_of_mem _ e)
      simp [splitOn, hc, ih hr]

theorem splitOn_append (sep : Byte) (a b : GoString) (h : sep ∉ a) :
    splitOn sep (a ++ sep :: b) = a :: splitOn sep b := by
  induction a with
  | nil => simp [splitOn]
  | cons c rest ih =>
      have hc : c ≠ sep := fun e => h (by simp [e])
      have hr : sep ∉ rest := fun e => h (List.mem_cons_of_mem _ e)
      simp [splitOn, hc, ih hr]

theorem space_not_stdChar (c : Byte) (h : isStdChar c = true) : c ≠ 32 := by
  intro e
  subst e
  revert h
  decide

theorem space_not_mem_encodeToString (bs : List Byte) : (32 : Byte) ∉ EncodeToString bs :=
  fun h => space_not_stdChar 32 (isStdChar_encodeToString bs 32 h) rfl

theorem withoutEmail_of_ok (L : SSHPackage) (p : Profile) (pk : L.PublicKey)
    (hpk : p.SSHPublicKey L = .ok pk) :
    p.AuthorizedKeyStringWithoutEmail L =
      (L.keyType pk ++ str " " ++ EncodeToString p.SSHWirePublicKey.bytes, none) := by
  simp [Profile.AuthorizedKeyStringWithoutEmail, hpk]

theorem withoutEmail_of_error (L : SSHPackage) (p : Profile) (err : Error)
    (herr : p.SSHPublicKey L = .error err) :
    p.AuthorizedKeyStringWithoutEmail L = ([], some err) := by
  simp [Profile.AuthorizedKeyStringWithoutEmail, herr]

theorem parseString_short (inp : List Byte) (h : inp.length < 4) : parseString inp = none := by
  simp [parseString, h]

theorem parseString_overlong (inp : List Byte) (h4 : 4 ≤ inp.length)
    (h : (inp.length - 4) % 2 ^ 32 < bigEndianUint32 inp) : parseString inp = none := by
  have h4' : ¬ inp.length < 4 := by omega
  simp only [parseString, h4', if_false, List.length_drop]
  rw [if_pos h]

/-- Known answer: SHA-256 of `abc` (FIPS 180-2, appendix B.1). -/
theorem sum256_abc :
    hexEncodeToString (Sum256 (str "abc")) =
      str "ba7816bf8f01cfea414140de5dae2223b00361a396177a9cb410ff61f20015ad" := by decide!

/-- Known answer: SHA-256 of the 56-byte two-block message of FIPS 180-2, appendix B.2. -/
theorem sum256_two_blocks :
    hexEncodeToString (Sum256 (str "abcdbcdecdefdefgefghfghighijhijkijkljklmklmnlmnomnopnopq")) =
      str "248d6a61d20638b8e5c026930c3e6039a33ce45964ff2167f6ecedd419db06c1" := by decide!

theorem length_sum256 (data : List Byte) : (Sum256 data).length = 32 := by
  simp [Sum256, putUint32]

theorem newline_eq : newline = [10] := by decide

theorem joinLines_singleton (a : GoString) : joinLines [a] = a := by
  simp [joinLines, List.intercalate]

theorem joinLines_cons_cons (a b : GoString) (rest : List GoString) :
    joinLines (a :: b :: rest) = a ++ 10 :: joinLines (b :: rest) := by
  simp [joinLines, List.intercalate, newline_eq]

theorem joinLines_append (xs ys : List GoString) (hx : xs ≠ []) (hy : ys ≠ []) :
    joinLines (xs ++ ys) = joinLines xs ++ 10 :: joinLines ys := by
  induction xs with
  | nil => exact absurd rfl hx
  | cons a rest ih =>
      cases rest with
      | nil =>
          cases ys with
          | nil => exact absurd rfl hy
          | cons b ys => simp [joinLines_cons_cons, joinLines_singleton]
      | cons b rest =>
          have := ih (by simp)
          simp only [List.cons_append] at this ⊢
          rw [joinLines_cons_cons, this, joinLines_cons_cons]
          simp

theorem splitOn_joinLines (ls : List GoString) (hne : ls ≠ []) (h : ∀ l ∈ ls, (10 : Byte) ∉ l) :
    splitOn 10 (joinLines ls) = ls := by
  induction ls with
  | nil => exact absurd rfl hne
  | cons a rest ih =>
      cases rest with
      | nil =>
          rw [joinLines_singleton]
          exact splitOn_of_not_mem 10 a (h a (by simp))
      | cons b rest =>
          rw [joinLines_cons_cons, splitOn_append 10 _ _ (h a (by simp)),
            ih (by simp) (fun l hl => h l (List.mem_cons_of_mem _ hl))]

theorem wrapLines_go_ne_nil (n fuel : Nat) (t : GoString) : wrapLines.go n fuel t ≠ [] := by
  cases fuel with
  | zero => simp [wrapLines.go]
  | succ fuel =>
      unfold wrapLines.go
      split <;> simp

theorem wrapLines_go_flatten (n fuel : Nat) (t : GoString) :
    (wrapLines.go n fuel t).flatten = t := by
  induction fuel generalizing t with
  | zero => simp [wrapLines.go]
  | succ fuel ih =>
      unfold wrapLines.go
      split
      · simp [ih]
      · simp

theorem wrapLines_go_mem (n fuel : Nat) (t : GoString) :
    ∀ l ∈ wrapLines.go n fuel t, ∀ c ∈ l, c ∈ t := by
  intro l hl c hc
  have h : c ∈ (wrapLines.go n fuel t).flatten := List.mem_flatten.mpr ⟨l, hl, hc⟩
  rwa [wrapLines_go_flatten] at h

theorem wrapLines_go_length_le (n fuel : Nat) (t : GoString) (hn : 0 < n)
    (hf : t.length ≤ fuel) : ∀ l ∈ wrapLines.go n fuel t, l.length ≤ n := by
  induction fuel generalizing t with
  | zero =>
      intro l hl
      simp only [wrapLines.go, List.mem_singleton] at hl
      subst hl
      omega
  | succ fuel ih =>
      intro l hl
      unfold wrapLines.go at hl
      split at hl
      · rcases List.mem_cons.mp hl with h | h
        · subst h
          simp only [List.length_take]
          omega
        · exact ih _ (by simp only [List.length_drop]; omega) l h
      · simp only [List.mem_singleton] at hl
        subst hl
        omega

theorem wrapLines_go_dropLast (n fuel : Nat) (t : GoString) :
    ∀ l ∈ (wrapLines.go n fuel t).dropLast, l.length = n := by
  induction fuel generalizing t with
  | zero => simp [wrapLines.go]
  | succ fuel ih =>
      intro l hl
      unfold wrapLines.go at hl
      split at hl
      · rename_i hlt
        rw [List.dropLast_cons_of_ne_nil (wrapLines_go_ne_nil _ _ _)] at hl
        rcases List.mem_cons.mp hl with h | h
        · subst h
          simp only [List.length_take]
          omega
        · exact ih _ l h
      · simp at hl

theorem wrapLines_go_dvd (n fuel : Nat) (t : GoString) (hn : 4 ∣ n) (ht : 4 ∣ t.length) :
    ∀ l ∈ wrapLines.go n fuel t, 4 ∣ l.length := by
  induction fuel generalizing t with
  | zero =>
      intro l hl
      simp only [wrapLines.go, List.mem_singleton] at hl
      subst hl
      exact ht
  | succ fuel ih =>
      intro l hl
      unfold wrapLines.go at hl
      split at hl
      · rename_i hlt
        rcases List.mem_cons.mp hl with h | h
        · subst h
          simp only [List.length_take]
          rw [Nat.min_eq_left (Nat.le_of_lt hlt)]
          exact hn
        · refine ih _ ?_ l h
          simp only [List.length_drop]
          exact (Nat.dvd_sub' ht hn)
      · simp only [List.mem_singleton] at hl
        subst hl
        exact ht

theorem wrapLines_ne_nil (n : Nat) (t : GoString) : wrapLines n t ≠ [] :=
  wrapLines_go_ne_nil _ _ _

theorem wrapLines_flatten (n : Nat) (t : GoString) : (wrapLines n t).flatten = t :=
  wrapLines_go_flatten _ _ _

theorem wrapLines_mem (n : Nat) (t : GoString) : ∀ l ∈ wrapLines n t, ∀ c ∈ l, c ∈ t :=
  wrapLines_go_mem _ _ _

theorem wrapLines_length_le (n : Nat) (t : GoString) (hn : 0 < n) :
    ∀ l ∈ wrapLines n t, l.length ≤ n :=
  wrapLines_go_length_le _ _ _ hn (Nat.le_refl _)

theorem wrapLines_dropLast (n : Nat) (t : GoString) :
    ∀ l ∈ (wrapLines n t).dropLast, l.length = n :=
  wrapLines_go_dropLast _ _ _

theorem wrapLines_dvd (n : Nat) (t : GoString) (hn : 4 ∣ n) (ht : 4 ∣ t.length) :
    ∀ l ∈ wrapLines n t, 4 ∣ l.length :=
  wrapLines_go_dvd _ _ _ hn ht

theorem armorEncode_eq_joinLines (data : List Byte) :
    armorEncode (str "PGP PUBLIC KEY BLOCK") KRYPTON_ASCII_ARMOR_HEADERS data =
      joinLines (armorLines data) := by
  have h1 : armorStart ++ str "PGP PUBLIC KEY BLOCK" ++ armorEndOfLineOut ++
      KRYPTON_ASCII_ARMOR_HEADERS.flatMap (fun kv => kv.1 ++ armorHeaderSep ++ kv.2 ++ newline) ++
      newline =
      joinLines [str "-----BEGIN PGP PUBLIC KEY BLOCK-----", str "Comment: Created with Krypton",
        []] ++ [10] := by decide
  have h2 : blockEnd = [10, StdPadding] := by decide
  have h3 : armorEnd ++ (str "PGP PUBLIC KEY BLOCK" ++ armorEndOfLine) =
      str "-----END PGP PUBLIC KEY BLOCK-----" := by decide
  unfold armorEncode armorLines
  rw [h1, h2, newline_eq]
  rw [List.append_assoc _ (wrapLines 64 _), joinLines_append _ _ (by simp)
    (by simp), joinLines_append _ _ (wrapLines_ne_nil _ _) (by simp)]
  simp only [joinLines_cons_cons, joinLines_singleton, List.append_assoc, List.cons_append,
    List.nil_append, List.singleton_append, h3]

theorem newline_not_stdChar (c : Byte) (h : isStdChar c = true) : c ≠ 10 := by
  intro e
  subst e
  revert h
  decide

theorem dash_not_stdChar (c : Byte) (h : isStdChar c = true) : c ≠ 45 := by
  intro e
  subst e
  revert h
  decide

theorem newline_not_mem_encodeToString (bs : List Byte) : (10 : Byte) ∉ EncodeToString bs :=
  fun h => newline_not_stdChar 10 (isStdChar_encodeToString bs 10 h) rfl

theorem armorLines_no_newline (data : List Byte) : ∀ l ∈ armorLines data, (10 : Byte) ∉ l := by
  intro l hl
  simp only [armorLines, List.mem_append, List.mem_cons, List.mem_singleton,
    List.not_mem_nil, or_false] at hl
  rcases hl with ((h | h | h) | h) | (h | h)
  · subst h; decide
  · subst h; decide
  · subst h; simp
  · exact fun hc => newline_not_mem_encodeToString data (wrapLines_mem _ _ l h 10 hc)
  · subst h
    intro hc
    rcases List.mem_cons.mp hc with e | e
    · exact absurd e (by decide)
    · exact newline_not_mem_encodeToString _ e
  · subst h; decide

theorem splitOn_armorLines (data : List Byte) :
    splitOn 10 (joinLines (armorLines data)) = armorLines data :=
  splitOn_joinLines _ (by simp [armorLines]) (armorLines_no_newline data)

theorem readHeaders_krypton (rest : List GoString) :
    readHeaders (str "Comment: Created with Krypton" :: [] :: rest) =
      some (KRYPTON_ASCII_ARMOR_HEADERS, rest) := by
  have h1 : str "Comment: Created with Krypton" ≠ [] := by decide
  have h2 : splitHeader (str "Comment: Created with Krypton") =
      some (str "Comment", str "Created with Krypton") := by decide
  simp [readHeaders, h1, h2, KRYPTON_ASCII_ARMOR_HEADERS]

theorem readBody_lines (blockType : GoString) (crc : List Byte) (hcrc : crc.length = 3)
    (lines : List GoString)
    (h4 : ∀ l ∈ lines, 4 ∣ l.length) (h64 : ∀ l ∈ lines, l.length ≤ 64)
    (hstd : ∀ l ∈ lines, ∀ c ∈ l, isStdChar c = true) :
    readBody blockType
        (lines ++ [StdPadding :: EncodeToString crc, armorEnd ++ blockType ++ armorEndOfLine]) =
      some (lines.flatten, crc) := by
  induction lines with
  | nil =>
      have hl : (StdPadding :: EncodeToString crc).length = 5 := by
        simp [length_encodeToString, hcrc]
      simp [readBody, readChecksum, hl, decodeString_encodeToString]
  | cons l rest ih =>
      have hl4 : 4 ∣ l.length := h4 l (by simp)
      have h5 : ¬ (l.length = 5 ∧ l.head? = some StdPadding) := by
        rintro ⟨h, -⟩
        omega
      have hend : armorEnd.isPrefixOf l = false := by
        cases l with
        | nil => decide
        | cons c l' =>
            have hc : c ≠ 45 := dash_not_stdChar c (hstd (c :: l') (by simp) c (by simp))
            have : armorEnd = 45 :: (armorEnd.drop 1) := by decide
            rw [this]
            simp [List.isPrefixOf, Ne.symm hc]
      have h96 : ¬ 96 < l.length := by
        have := h64 l (by simp)
        omega
      rw [List.cons_append, readBody, if_neg h5, hend]
      simp only [Bool.false_eq_true, if_false, h96]
      rw [ih (fun x hx => h4 x (List.mem_cons_of_mem _ hx))
        (fun x hx => h64 x (List.mem_cons_of_mem _ hx))
        (fun x hx => hstd x (List.mem_cons_of_mem _ hx))]
      simp

theorem armorDecode_armorEncode (data : List Byte) :
    armorDecode (armorEncode (str "PGP PUBLIC KEY BLOCK") KRYPTON_ASCII_ARMOR_HEADERS data) =
      some { blockType := str "PGP PUBLIC KEY BLOCK", Header := KRYPTON_ASCII_ARMOR_HEADERS,
             Body := data } := by
  have hstart : parseArmorStart (str "-----BEGIN PGP PUBLIC KEY BLOCK-----") =
      some (str "PGP PUBLIC KEY BLOCK") := by decide
  have hend : str "-----END PGP PUBLIC KEY BLOCK-----" =
      armorEnd ++ str "PGP PUBLIC KEY BLOCK" ++ armorEndOfLine := by decide
  have hlen : 4 ∣ (EncodeToString data).length := by
    rw [length_encodeToString]
    exact Nat.dvd_mul_right _ _
  have hbody := readBody_lines (str "PGP PUBLIC KEY BLOCK") (checksumBytes (crc24 crc24Init data))
    rfl (wrapLines 64 (EncodeToString data))
    (wrapLines_dvd 64 _ (by decide) hlen)
    (wrapLines_length_le 64 _ (by decide))
    (fun l hl c hc => isStdChar_encodeToString data c (wrapLines_mem _ _ l hl c hc))
  rw [armorEncode_eq_joinLines, armorDecode, splitOn_armorLines]
  simp only [armorLines, List.cons_append, List.nil_append, List.append_assoc]
  simp only [hstart, readHeaders_krypton, Option.bind_eq_bind, Option.some_bind]
  rw [hend, hbody]
  simp [wrapLines_flatten, decodeString_encodeToString]

theorem asciiArmor_of_some (p : Profile) (key : ByteSlice) (h : p.PGPPublicKey = some key) :
    p.AsciiArmorPGPPublicKey =
      (armorEncode (str "PGP PUBLIC KEY BLOCK") KRYPTON_ASCII_ARMOR_HEADERS key.bytes, none) := by
  simp [Profile.AsciiArmorPGPPublicKey, h]

theorem loop_skipOthers (Read : PacketRead) (n k : Nat) (b reader : List Byte)
    (h : skipOthers Read n b = some reader) :
    PGPPublicKeySHA1Fingerprint.loop Read (n + k) b =
      PGPPublicKeySHA1Fingerprint.loop Read k reader := by
  induction n generalizing b with
  | zero =>
      simp only [skipOthers, Option.some.injEq] at h
      subst h
      simp
  | succ n ih =>
      rw [Nat.add_right_comm]
      unfold skipOthers at h
      rw [PGPPublicKeySHA1Fingerprint.loop]
      split at h
      · rename_i r' hr
        rw [hr]
        exact ih _ h
      · cases h

theorem length_hexEncodeToString (l : List Byte) :
    (hexEncodeToString l).length = 2 * l.length := by
  induction l with
  | nil => rfl
  | cons v rest ih =>
      simp only [hexEncodeToString, List.length_cons, ih]
      omega

theorem hextable_getD_mem : ∀ i < 16, hextable.getD i 0 ∈ str "0123456789abcdef" := by decide

theorem hexEncodeToString_mem (l : List Byte) :
    ∀ c ∈ hexEncodeToString l, c ∈ str "0123456789abcdef" := by
  induction l with
  | nil => simp [hexEncodeToString]
  | cons v rest ih =>
      have hv := UInt8.toNat_lt v
      intro c hc
      simp only [hexEncodeToString, List.mem_cons] at hc
      rcases hc with h | h | h
      · rw [h]
        exact hextable_getD_mem _ (by omega)
      · rw [h, and_0x0f]
        exact hextable_getD_mem _ (Nat.mod_lt _ (by decide))
      · exact ih c h

theorem skipOthers_encodings (Read : PacketRead) (encs : List (List Byte)) (tail : List Byte)
    (h : ∀ e ∈ encs, Encodes Read e .Other) :
    skipOthers Read encs.length (encs.flatten ++ tail) = some tail := by
  induction encs with
  | nil => rfl
  | cons e rest ih =>
      have he := h e (by simp) (rest.flatten ++ tail)
      simp only [List.flatten_cons, List.append_assoc, List.length_cons, skipOthers, he]
      exact ih (fun x hx => h x (List.mem_cons_of_mem _ hx))

theorem loop_found (Read : PacketRead) (n fuel : Nat) (b reader rest : List Byte) (fp : Bytes20)
    (hskip : skipOthers Read n b = some reader) (hpk : Read reader = .ok (.PublicKey fp, rest))
    (hfuel : n < fuel) :
    PGPPublicKeySHA1Fingerprint.loop Read fuel b = some (hexEncodeToString fp.elems, none) := by
  obtain ⟨k, rfl⟩ : ∃ k, fuel = n + (k + 1) := ⟨fuel - n - 1, by omega⟩
  rw [loop_skipOthers Read n (k + 1) b reader hskip]
  simp [PGPPublicKeySHA1Fingerprint.loop, hpk]

theorem loop_failed (Read : PacketRead) (n fuel : Nat) (b reader : List Byte) (e : Error)
    (hskip : skipOthers Read n b = some reader) (herr : Read reader = .error e)
    (hfuel : n < fuel) :
    PGPPublicKeySHA1Fingerprint.loop Read fuel b =
      some ([], some (str "no pgp public key packet found")) := by
  obtain ⟨k, rfl⟩ : ∃ k, fuel = n + (k + 1) := ⟨fuel - n - 1, by omega⟩
  rw [loop_skipOthers Read n (k + 1) b reader hskip]
  simp [PGPPublicKeySHA1Fingerprint.loop, herr]

theorem encodes_sampleUserID : Encodes packetRead sampleUserID .Other := by
  intro rest
  rfl

theorem encodes_samplePublicKeyPacket :
    Encodes packetRead samplePublicKeyPacket (.PublicKey sampleFingerprint) := by
  intro rest
  rfl

theorem encodes_sampleSubkeyPacket :
    Encodes packetRead sampleSubkeyPacket (.PublicKey sampleSubkeyFingerprint) := by
  intro rest
  rfl

theorem encodes_sampleV3KeyPacket : Encodes packetRead sampleV3KeyPacket .Other := by
  intro rest
  rfl

theorem parsePublicKey_version (contents : List Byte) (fp : Bytes20)
    (h : parsePublicKey contents = .ok fp) : contents.head? = some 4 := by
  unfold parsePublicKey at h
  split at h
  · cases h
  · rename_i hlen
    cases contents with
    | nil => simp at hlen
    | cons c cs =>
        by_cases hv : c = 4
        · simp [hv]
        · simp [hv] at h

theorem readContents_publicKey_iff (tag length : Nat) (r : List Byte) (fp : Bytes20)
    (rest : List Byte) :
    readContents tag length r = .ok (.PublicKey fp, rest) ↔
      (tag = 6 ∨ tag = 14) ∧ length ≤ 4096 ∧ parsePublicKey (r.take length) = .ok fp ∧
        rest = r.drop length := by
  unfold readContents
  by_cases h13 : tag = 13
  · subst h13
    by_cases hl : r.length < length <;> simp [hl]
  · rw [if_neg h13]
    by_cases hk : tag = 6 ∨ tag = 14
    · rw [if_pos hk]
      by_cases hl : 4096 < length
      · have : ¬ length ≤ 4096 := by omega
        simp [hl, this]
      · have hle : length ≤ 4096 := by omega
        rw [if_neg hl]
        cases hc : r.take length with
        | nil =>
            have : parsePublicKey [] = .error (str "unexpected EOF") := rfl
            simp [this]
        | cons version contents =>
            dsimp only
            by_cases hv : version < 4
            · have hp : ∀ fp, parsePublicKey (version :: contents) ≠ .ok fp := by
                intro fp hfp
                have := parsePublicKey_version _ _ hfp
                simp only [List.head?_cons, Option.some.injEq] at this
                subst this
                exact absurd hv (by decide)
              rw [if_pos hv]
              constructor
              · intro h
                split at h <;> cases h
              · rintro ⟨_, _, h, _⟩
                exact absurd h (hp fp)
            · rw [if_neg hv]
              cases hp : parsePublicKey (version :: contents) with
              | error e => simp [hk, hle]
              | ok fp2 =>
                  simp only [Except.ok.injEq, Prod.mk.injEq, Packet.PublicKey.injEq, hk, hle,
                    true_and]
                  constructor
                  · rintro ⟨h1, h2⟩
                    exact ⟨h1, h2.symm⟩
                  · rintro ⟨h1, h2⟩
                    exact ⟨h1, h2.symm⟩
    · rw [if_neg hk]
      simp only [hk, false_and, iff_false]
      intro h
      split at h <;> cases h

theorem packetRead_publicKey_iff (input : List Byte) (fp : Bytes20) (rest : List Byte) :
    packetRead input = .ok (.PublicKey fp, rest) ↔
      ∃ (tagByte : Byte) (r : List Byte) (length : Nat) (body : List Byte),
        input = tagByte :: r ∧ tagByte &&& 0x80 ≠ 0 ∧
        readLength tagByte r = some (length, body) ∧
        (packetTag tagByte = 6 ∨ packetTag tagByte = 14) ∧ length ≤ 4096 ∧
        parsePublicKey (body.take length) = .ok fp ∧ rest = body.drop length := by
  cases input with
  | nil => simp [packetRead]
  | cons tagByte r =>
      unfold packetRead
      dsimp only
      by_cases hm : tagByte &&& 0x80 = 0
      · simp [hm]
      · rw [if_neg hm]
        cases hl : readLength tagByte r with
        | none => simp [hl]
        | some lb =>
            obtain ⟨length, body⟩ := lb
            dsimp only
            rw [readContents_publicKey_iff]
            constructor
            · rintro ⟨h1, h2, h3, h4⟩
              exact ⟨tagByte, r, length, body, rfl, hm, hl, h1, h2, h3, h4⟩
            · rintro ⟨t, r2, l2, b2, he, _, hl2, h1, h2, h3, h4⟩
              simp only [List.cons.injEq] at he
              obtain ⟨rfl, rfl⟩ := he
              rw [hl] at hl2
              simp only [Option.some.injEq, Prod.mk.injEq] at hl2
              obtain ⟨rfl, rfl⟩ := hl2
              exact ⟨h1, h2, h3, h4⟩

theorem uint16_octets (n : Nat) (h : n < 65536) :
    (UInt8.ofNat (n >>> 8)).toNat <<< 8 ||| (UInt8.ofNat n).toNat = n := by
  have h1 : (UInt8.ofNat (n >>> 8)).toNat = n / 256 := by
    rw [show (UInt8.ofNat (n >>> 8)).toNat = (n >>> 8) % 256 from UInt8.toNat_ofNat _,
      Nat.shiftRight_eq_div_pow]
    omega
  have h2 : (UInt8.ofNat n).toNat = n % 256 := UInt8.toNat_ofNat _
  rw [h1, h2, Nat.shiftLeft_eq, Nat.mul_comm,
    ← Nat.mul_add_lt_is_or (show n % 256 < 2 ^ 8 by omega)]
  omega

theorem readMPI_writeMPI (m : parsedMPI) (h : m.wellFormed) (rest : List Byte) :
    readMPI (writeMPI m ++ rest) = some (m, rest) := by
  obtain ⟨bytes, bitLength⟩ := m
  obtain ⟨h1, h2⟩ := h
  simp only at h1 h2
  simp only [writeMPI, List.cons_append, readMPI, uint16_octets bitLength h1]
  rw [if_neg (by simp [h2])]
  simp [← h2]

theorem parsePublicKey_rsa (t1 t2 t3 t4 algo : Byte) (n e : parsedMPI) (junk : List Byte)
    (ha : algo = 1 ∨ algo = 2 ∨ algo = 3) (hn : n.wellFormed) (he : e.wellFormed)
    (he3 : e.bytes.length ≤ 3) :
    parsePublicKey (4 :: t1 :: t2 :: t3 :: t4 :: algo :: (writeMPI n ++ (writeMPI e ++ junk))) =
      .ok (setFingerPrintAndKeyId [4, t1, t2, t3, t4, algo] [n, e]) := by
  unfold parsePublicKey
  rw [if_neg (by simp)]
  simp only [List.take_succ_cons, List.take_zero, List.drop_succ_cons, List.drop_zero,
    List.getD_cons_zero, List.getD_cons_succ, ne_eq, not_true_eq_false, if_false, ha, if_true,
    parseRSA, readMPI_writeMPI n hn, readMPI_writeMPI e he]
  rw [if_neg (by omega)]

theorem encodes_rsaKeyPacket (tagByte t1 t2 t3 t4 algo : Byte) (n e : parsedMPI)
    (ht : tagByte = 0x99 ∨ tagByte = 0xB9) (ha : algo = 1 ∨ algo = 2 ∨ algo = 3)
    (hn : n.wellFormed) (he : e.wellFormed) (he3 : e.bytes.length ≤ 3)
    (hl : 10 + n.bytes.length + e.bytes.length ≤ 4096) :
    Encodes packetRead
      (tagByte :: UInt8.ofNat ((10 + n.bytes.length + e.bytes.length) >>> 8) ::
        UInt8.ofNat (10 + n.bytes.length + e.bytes.length) ::
        4 :: t1 :: t2 :: t3 :: t4 :: algo :: (writeMPI n ++ writeMPI e))
      (.PublicKey (setFingerPrintAndKeyId [4, t1, t2, t3, t4, algo] [n, e])) := by
  intro rest
  have hlen : (4 :: t1 :: t2 :: t3 :: t4 :: algo :: (writeMPI n ++ writeMPI e)).length =
      10 + n.bytes.length + e.bytes.length := by
    simp [writeMPI]
    omega
  have hread : ∀ r : List Byte, readLength tagByte
      (UInt8.ofNat ((10 + n.bytes.length + e.bytes.length) >>> 8) ::
        UInt8.ofNat (10 + n.bytes.length + e.bytes.length) :: r) =
      some (10 + n.bytes.length + e.bytes.length, r) := by
    intro r
    have := uint16_octets (10 + n.bytes.length + e.bytes.length) (by omega)
    rcases ht with rfl | rfl
    · show some (_, r) = _
      rw [this]
    · show some (_, r) = _
      rw [this]
  have hmsb : ¬ tagByte &&& 0x80 = 0 := by
    rcases ht with rfl | rfl <;> decide
  have htag : packetTag tagByte = 6 ∨ packetTag tagByte = 14 := by
    rcases ht with rfl | rfl
    · exact Or.inl rfl
    · exact Or.inr rfl
  refine (packetRead_publicKey_iff _ _ _).mpr ⟨tagByte, _, _, _, rfl, hmsb, hread _, htag, hl, ?_, ?_⟩
  · rw [← hlen]
    show parsePublicKey (List.take _ (_ ++ rest)) = _
    rw [List.take_left]
    have h := parsePublicKey_rsa t1 t2 t3 t4 algo n e [] ha hn he he3
    rwa [List.append_nil] at h
  · rw [← hlen]
    show rest = List.drop _ (_ ++ rest)
    rw [List.drop_left]

theorem setFingerPrintAndKeyId_rsa (t1 t2 t3 t4 algo : Byte) (n e : parsedMPI) :
    setFingerPrintAndKeyId [4, t1, t2, t3, t4, algo] [n, e] =
      sha1Sum (0x99 :: UInt8.ofNat ((10 + n.bytes.length + e.bytes.length) >>> 8) ::
        UInt8.ofNat (10 + n.bytes.length + e.bytes.length) ::
        4 :: t1 :: t2 :: t3 :: t4 :: algo :: (writeMPI n ++ writeMPI e)) := by
  have h : 2 + n.bytes.length + (2 + e.bytes.length) + 6 =
      10 + n.bytes.length + e.bytes.length := by omega
  simp [setFingerPrintAndKeyId, h]

theorem equal_eq_true_iff (p q : Profile) :
    p.Equal q = true ↔
      p.SSHWirePublicKey.bytes = q.SSHWirePublicKey.bytes ∧ p.Email = q.Email := by
  simp [Profile.Equal, bytesEqual]

theorem authorizedKeyString_eq (L : SSHPackage) (p : Profile) :
    p.AuthorizedKeyString L =
      match p.SSHPublicKey L with
      | .error err => ([], some err)
      | .ok pk =>
          (L.keyType pk ++ str " " ++ EncodeToString p.SSHWirePublicKey.bytes ++
            (str " " ++ Replace p.Email (str " ") (str "")), none) := by
  unfold Profile.AuthorizedKeyString Profile.AuthorizedKeyStringWithoutEmail
  cases p.SSHPublicKey L <;> rfl

theorem loop_error_empty (Read : PacketRead) (fuel : Nat) (reader : List Byte) (s : GoString)
    (e : Error) (h : PGPPublicKeySHA1Fingerprint.loop Read fuel reader = some (s, some e)) :
    s = [] ∧ e = str "no pgp public key packet found" := by
  induction fuel generalizing reader with
  | zero => simp [PGPPublicKeySHA1Fingerprint.loop] at h
  | succ fuel ih =>
      rw [PGPPublicKeySHA1Fingerprint.loop] at h
      split at h
      · simp only [Option.some.injEq, Prod.mk.injEq] at h
        exact ⟨h.1.symm, h.2.symm⟩
      · simp at h
      · exact ih _ h

theorem prVersion_compare_self (a : PRVersion) : a.Compare a = 0 := by
  unfold PRVersion.Compare
  cases a.IsNum <;> simp

theorem comparePre_self (l : List PRVersion) : comparePre l l = 0 := by
  induction l with
  | nil => rfl
  | cons a rest ih => simp [comparePre, prVersion_compare_self, ih]

theorem version_compare_self (v : Version) : v.Compare v = 0 := by
  unfold Version.Compare
  simp only [ne_eq, not_true_eq_false, if_false, comparePre_self]
  split
  · rfl
  · split
    · omega
    · split
      · omega
      · rfl

theorem mustParse_eq_some (Parse : SemverMake) (s : GoString) (v : Version)
    (h : MustParse Parse s = some v) : Parse s = (v, none) := by
  unfold MustParse at h
  split at h
  · rename_i v2 hp
    simp only [Option.some.injEq] at h
    rw [hp, h]
  · cases h

/-! ## The semver parser and the semantic-versioning grammar -/

theorem ofNat_toNat_byte (c : Byte) : UInt8.ofNat c.toNat = c :=
  ofNat_eq_of_mod c c.toNat (Nat.mod_eq_of_lt (UInt8.toNat_lt c))

theorem numbers_contains_all : ∀ n < 256, numbers.contains (UInt8.ofNat n) = isDigit (UInt8.ofNat n) := by
  decide!

theorem alphanum_contains_all :
    ∀ n < 256, alphanum.contains (UInt8.ofNat n) = isIdentifierCharacter (UInt8.ofNat n) := by
  decide!

theorem numbers_contains (c : Byte) : numbers.contains c = isDigit c := by
  have h := numbers_contains_all c.toNat (UInt8.toNat_lt c)
  rwa [ofNat_toNat_byte] at h

theorem alphanum_contains (c : Byte) : alphanum.contains c = isIdentifierCharacter c := by
  have h := alphanum_contains_all c.toNat (UInt8.toNat_lt c)
  rwa [ofNat_toNat_byte] at h

theorem containsOnly_numbers (s : GoString) : containsOnly s numbers = s.all isDigit := by
  have h : (fun c => numbers.contains c) = isDigit := funext numbers_contains
  unfold containsOnly
  rw [h]

theorem containsOnly_alphanum (s : GoString) :
    containsOnly s alphanum = s.all isIdentifierCharacter := by
  have h : (fun c => alphanum.contains c) = isIdentifierCharacter := funext alphanum_contains
  unfold containsOnly
  rw [h]

theorem isPositiveDigit_iff (c : Byte) :
    isPositiveDigit c = true ↔ isDigit c = true ∧ c ≠ 48 := by
  have hc : c = 48 ↔ c.toNat = 48 := by
    constructor
    · intro h; rw [h]; rfl
    · intro h; exact UInt8.ext h
  simp only [isPositiveDigit, isDigit, Bool.and_eq_true, decide_eq_true_eq, ne_eq, hc]
  omega

theorem isNumericIdentifier_iff (s : GoString) :
    isNumericIdentifier s = true ↔
      s ≠ [] ∧ s.all isDigit = true ∧ hasLeadingZeroes s = false := by
  match s with
  | [] => simp [isNumericIdentifier]
  | [c] => simp [isNumericIdentifier, hasLeadingZeroes]
  | c :: d :: r =>
      simp only [isNumericIdentifier, Bool.and_eq_true, isPositiveDigit_iff, List.all_cons,
        hasLeadingZeroes, List.length_cons, List.head?_cons, ne_eq, reduceCtorEq,
        not_false_eq_true, true_and, Bool.and_eq_false_iff, decide_eq_false_iff_not]
      constructor
      · rintro ⟨⟨h1, h2⟩, h3, h4⟩
        refine ⟨⟨h1, h3, h4⟩, Or.inr ?_⟩
        simpa using h2
      · rintro ⟨⟨h1, h3, h4⟩, h | h⟩
        · omega
        · refine ⟨⟨h1, ?_⟩, h3, h4⟩
          simpa using h

theorem parseUint_of_digits (s : GoString) (hne : s ≠ []) (hd : s.all isDigit = true) :
    parseUint s =
      if 2 ^ 64 ≤ decimalValue s then
        .error (str "strconv.ParseUint: parsing " ++ quoted s ++ str ": value out of range")
      else .ok (decimalValue s) := by
  unfold parseUint
  rw [if_neg]
  simp [hne, containsOnly_numbers, hd]

theorem parseNumber_ok_iff (name Name s : GoString) (v : Nat) :
    parseNumber name Name s = .ok v ↔
      isNumericIdentifier s = true ∧ decimalValue s < 2 ^ 64 ∧ v = decimalValue s := by
  rw [isNumericIdentifier_iff]
  unfold parseNumber
  rw [containsOnly_numbers]
  by_cases hd : s.all isDigit = true
  · by_cases hz : hasLeadingZeroes s = true
    · simp [hd, hz]
    · by_cases hne : s = []
      · subst hne
        simp [parseUint, hasLeadingZeroes]
      · rw [parseUint_of_digits s hne hd]
        simp only [hd, hz, Bool.true_eq_false, if_false, Bool.false_eq_true, ne_eq, hne,
          not_false_eq_true, true_and, Bool.not_eq_true] at hz ⊢
        by_cases hv : 2 ^ 64 ≤ decimalValue s
        · simp only [hv, if_true, reduceCtorEq, false_iff, not_and]
          intros
          omega
        · simp only [hv, if_false, Except.ok.injEq, hz, true_and]
          constructor
          · intro h; exact ⟨by omega, h.symm⟩
          · intro h; exact h.2.symm
  · simp [hd]

theorem byte_eq_iff (c : Byte) (n : Nat) (hn : n < 256) : c = UInt8.ofNat n ↔ c.toNat = n := by
  constructor
  · intro h
    rw [h]
    exact (UInt8.toNat_ofNat n).trans (Nat.mod_eq_of_lt hn)
  · intro h
    exact (ofNat_eq_of_mod c n (by rw [h]; exact Nat.mod_eq_of_lt hn)).symm

theorem isNonDigit_of_not_digit (c : Byte) (hi : isIdentifierCharacter c = true)
    (hd : isDigit c = false) : isNonDigit c = true := by
  simpa [isIdentifierCharacter, hd] using hi

theorem not_nonDigit_of_digit (c : Byte) (hd : isDigit c = true) : isNonDigit c = false := by
  have h45 : (c == 45) = decide (c.toNat = 45) := by
    rw [Bool.eq_iff_iff]
    simp only [beq_iff_eq, decide_eq_true_eq]
    exact byte_eq_iff c 45 (by decide)
  simp only [isDigit, Bool.and_eq_true, decide_eq_true_eq] at hd
  simp only [isNonDigit, isLetter, h45, Bool.or_eq_false_iff, Bool.and_eq_false_iff,
    decide_eq_false_iff_not]
  omega

theorem any_nonDigit_of_digits (s : GoString) (hd : s.all isDigit = true) :
    s.any isNonDigit = false := by
  rw [List.any_eq_false]
  intro c hc
  rw [List.all_eq_true] at hd
  simp [not_nonDigit_of_digit c (hd c hc)]

theorem any_nonDigit_of_not_digits (s : GoString) (hi : s.all isIdentifierCharacter = true)
    (hd : s.all isDigit = false) : s.any isNonDigit = true := by
  rw [List.all_eq_false] at hd
  obtain ⟨c, hc, hcd⟩ := hd
  rw [List.all_eq_true] at hi
  rw [List.any_eq_true]
  exact ⟨c, hc, isNonDigit_of_not_digit c (hi c hc) (by simpa using hcd)⟩

theorem all_ident_of_digits (s : GoString) (hd : s.all isDigit = true) :
    s.all isIdentifierCharacter = true := by
  rw [List.all_eq_true] at hd ⊢
  intro c hc
  simp [isIdentifierCharacter, hd c hc]

theorem newPRVersion_ok_iff (s : GoString) (p : PRVersion) :
    NewPRVersion s = .ok p ↔
      isPreReleaseIdentifier s = true ∧
        (isNumericIdentifier s = true → decimalValue s < 2 ^ 64) ∧ p = preReleaseOf s := by
  unfold NewPRVersion
  by_cases hne : s = []
  · subst hne
    simp [isPreReleaseIdentifier, isAlphanumericIdentifier, isNumericIdentifier]
  · have hlen : ¬ s.length = 0 := by simpa using hne
    rw [if_neg hlen, containsOnly_numbers, containsOnly_alphanum]
    by_cases hd : s.all isDigit = true
    · have hal : isAlphanumericIdentifier s = false := by
        simp [isAlphanumericIdentifier, any_nonDigit_of_digits s hd]
      have hnum : isNumericIdentifier s = true ↔ hasLeadingZeroes s = false := by
        rw [isNumericIdentifier_iff]
        simp [hne, hd]
      rw [if_pos hd]
      by_cases hz : hasLeadingZeroes s = true
      · have hn : isNumericIdentifier s = false := by
          rw [Bool.eq_false_iff]
          intro h
          rw [hnum.mp h] at hz
          cases hz
        simp [hz, isPreReleaseIdentifier, hal, hn]
      · have hn : isNumericIdentifier s = true := hnum.mpr (by simpa using hz)
        rw [if_neg hz, parseUint_of_digits s hne hd]
        simp only [isPreReleaseIdentifier, hal, hn, Bool.or_true, true_and, forall_const,
          preReleaseOf, if_true]
        by_cases hv : 2 ^ 64 ≤ decimalValue s
        · simp only [hv, if_true, reduceCtorEq, false_iff, not_and]
          intro h
          omega
        · simp only [hv, if_false, Except.ok.injEq]
          constructor
          · intro h; exact ⟨by omega, h.symm⟩
          · intro h; exact h.2.symm
    · have hd' : s.all isDigit = false := by simpa using hd
      have hn : isNumericIdentifier s = false := by
        rw [Bool.eq_false_iff]
        intro h
        exact hd ((isNumericIdentifier_iff s).mp h).2.1
      rw [if_neg hd]
      by_cases hi : s.all isIdentifierCharacter = true
      · have hal : isAlphanumericIdentifier s = true := by
          simp [isAlphanumericIdentifier, hi, any_nonDigit_of_not_digits s hi hd']
        simp only [hi, if_true, Except.ok.injEq, isPreReleaseIdentifier, hal, hn, Bool.or_false,
          Bool.false_eq_true, false_implies, true_and, preReleaseOf, if_false]
        exact eq_comm
      · have hal : isAlphanumericIdentifier s = false := by
          simp [isAlphanumericIdentifier, hi]
        simp [hi, isPreReleaseIdentifier, hal, hn]

theorem parseBuild_ok_iff (s b : GoString) :
    parseBuild s = .ok b ↔ isBuildIdentifier s = true ∧ b = s := by
  unfold parseBuild
  by_cases hne : s = []
  · subst hne
    simp [isBuildIdentifier, isAlphanumericIdentifier]
  · have hlen : ¬ s.length = 0 := by simpa using hne
    have hemp : s.isEmpty = false := by simpa [List.isEmpty_iff] using hne
    rw [if_neg hlen, containsOnly_alphanum]
    by_cases hi : s.all isIdentifierCharacter = true
    · have hb : isBuildIdentifier s = true := by
        by_cases hd : s.all isDigit = true
        · simp [isBuildIdentifier, hemp, hd]
        · simp [isBuildIdentifier, isAlphanumericIdentifier, hi,
            any_nonDigit_of_not_digits s hi (by simpa using hd)]
      simp only [hi, Bool.true_eq_false, if_false, Except.ok.injEq, hb, true_and]
      exact eq_comm
    · have hb : isBuildIdentifier s = false := by
        have hd : s.all isDigit = false := by
          rw [Bool.eq_false_iff]
          intro h
          exact hi (all_ident_of_digits s h)
        simp [isBuildIdentifier, isAlphanumericIdentifier, hi, hd]
      simp [hi, hb]

theorem cutAt_eq_none_iff (sep : Byte) (s : GoString) : cutAt sep s = none ↔ sep ∉ s := by
  induction s with
  | nil => simp [cutAt]
  | cons c rest ih =>
      by_cases hc : c = sep
      · simp [cutAt, hc]
      · have hc' : ¬ sep = c := fun e => hc e.symm
        simp [cutAt, hc, hc', ih]

theorem cutAt_eq_some_iff (sep : Byte) (s a b : GoString) :
    cutAt sep s = some (a, b) ↔ s = a ++ sep :: b ∧ sep ∉ a := by
  induction s generalizing a with
  | nil => simp [cutAt]
  | cons c rest ih =>
      by_cases hc : c = sep
      · subst hc
        simp only [cutAt, if_true, Option.some.injEq, Prod.mk.injEq]
        constructor
        · rintro ⟨rfl, rfl⟩
          simp
        · rintro ⟨h, hn⟩
          cases a with
          | nil => simpa [eq_comm] using h
          | cons x a =>
              simp only [List.cons_append, List.cons.injEq] at h
              exact absurd (by simp [h.1]) hn
      · simp only [cutAt, hc, if_false, Option.map_eq_some', Prod.mk.injEq, Prod.exists]
        constructor
        · rintro ⟨a1, b1, h, rfl, rfl⟩
          obtain ⟨h1, h2⟩ := (ih a1).mp h
          refine ⟨by simp [h1], ?_⟩
          simp only [List.mem_cons, not_or]
          exact ⟨fun e => hc e.symm, h2⟩
        · rintro ⟨h, hn⟩
          cases a with
          | nil =>
              simp only [List.nil_append, List.cons.injEq] at h
              exact absurd h.1 hc
          | cons x a =>
              simp only [List.cons_append, List.cons.injEq] at h
              simp only [List.mem_cons, not_or] at hn
              exact ⟨a, b, (ih a).mpr ⟨h.2, hn.2⟩, by rw [h.1], rfl⟩

theorem splitOn_ne_nil (sep : Byte) (b : GoString) : splitOn sep b ≠ [] := by
  induction b with
  | nil => simp [splitOn]
  | cons c rest ih =>
      by_cases hc : c = sep
      · simp [splitOn, hc]
      · simp only [splitOn, hc, if_false]
        split <;> simp

theorem dotSeparated_cons_cons (a b : GoString) (rest : List GoString) :
    dotSeparated (a :: b :: rest) = a ++ 46 :: dotSeparated (b :: rest) := by
  simp [dotSeparated, List.intercalate, List.intersperse]

theorem dotSeparated_singleton (a : GoString) : dotSeparated [a] = a := by
  simp [dotSeparated, List.intercalate, List.intersperse]

theorem dotSeparated_splitOn (b : GoString) : dotSeparated (splitOn 46 b) = b := by
  induction b with
  | nil => simp [splitOn, dotSeparated_singleton]
  | cons c rest ih =>
      by_cases hc : c = 46
      · subst hc
        have hne := splitOn_ne_nil 46 rest
        simp only [splitOn, if_true]
        cases hs : splitOn 46 rest with
        | nil => exact absurd hs hne
        | cons p ps =>
            rw [dotSeparated_cons_cons, ← hs, ih]
            rfl
      · have hne := splitOn_ne_nil 46 rest
        simp only [splitOn, hc, if_false]
        cases hs : splitOn 46 rest with
        | nil => exact absurd hs hne
        | cons p ps =>
            rw [hs] at ih
            cases ps with
            | nil =>
                rw [dotSeparated_singleton] at ih ⊢
                rw [ih]
            | cons q qs =>
                rw [dotSeparated_cons_cons] at ih ⊢
                rw [← ih]
                rfl

theorem splitOn_dotSeparated (ls : List GoString) (hne : ls ≠ [])
    (h : ∀ l ∈ ls, (46 : Byte) ∉ l) : splitOn 46 (dotSeparated ls) = ls := by
  induction ls with
  | nil => exact absurd rfl hne
  | cons a rest ih =>
      cases rest with
      | nil =>
          rw [dotSeparated_singleton]
          exact splitOn_of_not_mem 46 a (h a (by simp))
      | cons b rest =>
          rw [dotSeparated_cons_cons, splitOn_append 46 _ _ (h a (by simp)),
            ih (by simp) (fun l hl => h l (List.mem_cons_of_mem _ hl))]

theorem mem_dotSeparated (c : Byte) (ls : List GoString) (h : c ∈ dotSeparated ls) :
    c = 46 ∨ ∃ l ∈ ls, c ∈ l := by
  induction ls with
  | nil => simp [dotSeparated, List.intercalate, List.intersperse] at h
  | cons a rest ih =>
      cases rest with
      | nil =>
          rw [dotSeparated_singleton] at h
          exact Or.inr ⟨a, by simp, h⟩
      | cons b rest =>
          rw [dotSeparated_cons_cons] at h
          simp only [List.mem_append, List.mem_cons] at h
          rcases h with h | h | h
          · exact Or.inr ⟨a, by simp, h⟩
          · exact Or.inl h
          · rcases ih h with h | ⟨l, hl, hc⟩
            · exact Or.inl h
            · exact Or.inr ⟨l, List.mem_cons_of_mem _ hl, hc⟩

theorem mapM_ok_iff {α β : Type} (f : α → Except Error β) (P : α → Prop) (g : α → β)
    (hf : ∀ a b, f a = .ok b ↔ P a ∧ b = g a) (l : List α) (r : List β) :
    l.mapM f = .ok r ↔ (∀ a ∈ l, P a) ∧ r = l.map g := by
  induction l generalizing r with
  | nil =>
      rw [List.mapM_nil]
      simp only [pure, Except.pure, Except.ok.injEq, List.not_mem_nil, false_implies,
        implies_true, List.map_nil, true_and]
      exact eq_comm
  | cons a l ih =>
      rw [List.mapM_cons]
      cases hfa : f a with
      | error e =>
          have : ¬ P a := fun hp => by
            have := (hf a (g a)).mpr ⟨hp, rfl⟩
            rw [hfa] at this
            cases this
          simp only [bind, Except.bind, reduceCtorEq, List.mem_cons, forall_eq_or_imp, this,
            false_and]
      | ok b =>
          obtain ⟨hp, hb⟩ := (hf a b).mp hfa
          cases hl : l.mapM f with
          | error e =>
              have : ¬ ∀ x ∈ l, P x := fun hall => by
                have := (ih (l.map g)).mpr ⟨hall, rfl⟩
                rw [hl] at this
                cases this
              simp only [bind, Except.bind, reduceCtorEq, List.mem_cons, forall_eq_or_imp, hp,
                true_and, this, false_and]
          | ok bs =>
              obtain ⟨hall, hbs⟩ := (ih bs).mp hl
              simp only [bind, Except.bind, pure, Except.pure, Except.ok.injEq, List.mem_cons,
                forall_eq_or_imp, hp, hall, and_self, List.map_cons, true_and]
              rw [hb, hbs]
              constructor
              · intro h
                exact ⟨hall, h.symm⟩
              · intro h
                exact h.2.symm

theorem parseVersion_of_split (s major minor rest : GoString) (hs : s ≠ [])
    (h : splitN3 s = [major, minor, rest]) :
    parseVersion s =
      (parseNumber (str "major") (str "Major") major).bind fun mj =>
      (parseNumber (str "minor") (str "Minor") minor).bind fun mn =>
      (parseNumber (str "patch") (str "Patch") (cutPreRelease (cutBuild rest).1).1).bind fun pt =>
      ((cutPreRelease (cutBuild rest).1).2.mapM NewPRVersion).bind fun pre =>
      ((cutBuild rest).2.mapM parseBuild).bind fun build =>
      .ok { Major := mj, Minor := mn, Patch := pt, Pre := pre, Build := build } := by
  have hlen : ¬ s.length = 0 := by simpa using hs
  unfold parseVersion
  rw [if_neg hlen, h]
  rfl

theorem splitN3_eq_three_iff (s major minor rest : GoString) :
    splitN3 s = [major, minor, rest] ↔
      s = major ++ 46 :: (minor ++ 46 :: rest) ∧ (46 : Byte) ∉ major ∧ (46 : Byte) ∉ minor := by
  unfold splitN3
  cases h1 : cutAt 46 s with
  | none =>
      have hn := (cutAt_eq_none_iff 46 s).mp h1
      simp only [List.cons.injEq, reduceCtorEq, and_false, false_iff, not_and]
      intro hs
      exact absurd (by simp [hs]) hn
  | some ab =>
      obtain ⟨a, b⟩ := ab
      obtain ⟨hs, ha⟩ := (cutAt_eq_some_iff 46 s a b).mp h1
      dsimp only
      cases h2 : cutAt 46 b with
      | none =>
          have hn := (cutAt_eq_none_iff 46 b).mp h2
          simp only [List.cons.injEq, reduceCtorEq, and_false, false_iff, not_and]
          intro hs2 hmaj
          have h3 := (cutAt_eq_some_iff 46 s major (minor ++ 46 :: rest)).mpr ⟨hs2, hmaj⟩
          rw [h1] at h3
          simp only [Option.some.injEq, Prod.mk.injEq] at h3
          exact absurd (by simp [h3.2]) hn
      | some cd =>
          obtain ⟨c, d⟩ := cd
          obtain ⟨hb, hc⟩ := (cutAt_eq_some_iff 46 b c d).mp h2
          simp only [List.cons.injEq, and_true]
          constructor
          · rintro ⟨rfl, rfl, rfl⟩
            exact ⟨by rw [hs, hb], ha, hc⟩
          · rintro ⟨hs2, hmaj, hmin⟩
            have h3 := (cutAt_eq_some_iff 46 s major (minor ++ 46 :: rest)).mpr ⟨hs2, hmaj⟩
            rw [h1] at h3
            simp only [Option.some.injEq, Prod.mk.injEq] at h3
            have h4 := (cutAt_eq_some_iff 46 b minor rest).mpr ⟨h3.2, hmin⟩
            rw [h2] at h4
            simp only [Option.some.injEq, Prod.mk.injEq] at h4
            exact ⟨h3.1, h4.1, h4.2⟩

theorem render_cutBuild (rest : GoString) :
    rest = (cutBuild rest).1 ++
      (if (cutBuild rest).2 = [] then [] else 43 :: dotSeparated (cutBuild rest).2) := by
  unfold cutBuild
  cases h : cutAt 43 rest with
  | none => simp
  | some ab =>
      obtain ⟨a, b⟩ := ab
      simp only [splitOn_ne_nil, if_false, dotSeparated_splitOn]
      exact ((cutAt_eq_some_iff 43 rest a b).mp h).1

theorem render_cutPreRelease (rest : GoString) :
    rest = (cutPreRelease rest).1 ++
      (if (cutPreRelease rest).2 = [] then [] else 45 :: dotSeparated (cutPreRelease rest).2) := by
  unfold cutPreRelease
  cases h : cutAt 45 rest with
  | none => simp
  | some ab =>
      obtain ⟨a, b⟩ := ab
      simp only [splitOn_ne_nil, if_false, dotSeparated_splitOn]
      exact ((cutAt_eq_some_iff 45 rest a b).mp h).1

theorem cutBuild_render (a : GoString) (build : List GoString) (ha : (43 : Byte) ∉ a)
    (hb : ∀ l ∈ build, (46 : Byte) ∉ l) :
    cutBuild (a ++ (if build = [] then [] else 43 :: dotSeparated build)) = (a, build) := by
  unfold cutBuild
  by_cases hne : build = []
  · subst hne
    simp only [if_true, List.append_nil]
    rw [(cutAt_eq_none_iff 43 a).mpr ha]
  · rw [if_neg hne, (cutAt_eq_some_iff 43 _ a (dotSeparated build)).mpr ⟨rfl, ha⟩]
    simp only [splitOn_dotSeparated build hne hb]

theorem cutPreRelease_render (a : GoString) (pre : List GoString) (ha : (45 : Byte) ∉ a)
    (hb : ∀ l ∈ pre, (46 : Byte) ∉ l) :
    cutPreRelease (a ++ (if pre = [] then [] else 45 :: dotSeparated pre)) = (a, pre) := by
  unfold cutPreRelease
  by_cases hne : pre = []
  · subst hne
    simp only [if_true, List.append_nil]
    rw [(cutAt_eq_none_iff 45 a).mpr ha]
  · rw [if_neg hne, (cutAt_eq_some_iff 45 _ a (dotSeparated pre)).mpr ⟨rfl, ha⟩]
    simp only [splitOn_dotSeparated pre hne hb]

theorem isIdentifierCharacter_exclusion (c : Byte) (h : isIdentifierCharacter c = true) :
    c ≠ 46 ∧ c ≠ 43 := by
  have h45 : (c == 45) = decide (c.toNat = 45) := by
    rw [Bool.eq_iff_iff]
    simp only [beq_iff_eq, decide_eq_true_eq]
    exact byte_eq_iff c 45 (by decide)
  simp only [isIdentifierCharacter, isDigit, isNonDigit, isLetter, h45, Bool.or_eq_true,
    Bool.and_eq_true, decide_eq_true_eq] at h
  constructor
  · intro e
    have := (byte_eq_iff c 46 (by decide)).mp e
    omega
  · intro e
    have := (byte_eq_iff c 43 (by decide)).mp e
    omega

theorem isDigit_exclusion (c : Byte) (h : isDigit c = true) : c ≠ 46 ∧ c ≠ 43 ∧ c ≠ 45 := by
  simp only [isDigit, Bool.and_eq_true, decide_eq_true_eq] at h
  refine ⟨?_, ?_, ?_⟩
  · intro e
    have := (byte_eq_iff c 46 (by decide)).mp e
    omega
  · intro e
    have := (byte_eq_iff c 43 (by decide)).mp e
    omega
  · intro e
    have := (byte_eq_iff c 45 (by decide)).mp e
    omega

theorem numeric_all_digits (s : GoString) (h : isNumericIdentifier s = true) :
    s.all isDigit = true := ((isNumericIdentifier_iff s).mp h).2.1

theorem numeric_exclusion (s : GoString) (h : isNumericIdentifier s = true) :
    (46 : Byte) ∉ s ∧ (43 : Byte) ∉ s ∧ (45 : Byte) ∉ s := by
  have hd := numeric_all_digits s h
  rw [List.all_eq_true] at hd
  exact ⟨fun hm => (isDigit_exclusion _ (hd _ hm)).1 rfl,
    fun hm => (isDigit_exclusion _ (hd _ hm)).2.1 rfl,
    fun hm => (isDigit_exclusion _ (hd _ hm)).2.2 rfl⟩

theorem preRelease_all_ident (s : GoString) (h : isPreReleaseIdentifier s = true) :
    s.all isIdentifierCharacter = true := by
  simp only [isPreReleaseIdentifier, Bool.or_eq_true] at h
  rcases h with h | h
  · simp only [isAlphanumericIdentifier, Bool.and_eq_true] at h
    exact h.1
  · exact all_ident_of_digits s (numeric_all_digits s h)

theorem build_all_ident (s : GoString) (h : isBuildIdentifier s = true) :
    s.all isIdentifierCharacter = true := by
  simp only [isBuildIdentifier, Bool.or_eq_true, Bool.and_eq_true] at h
  rcases h with h | h
  · simp only [isAlphanumericIdentifier, Bool.and_eq_true] at h
    exact h.1
  · exact all_ident_of_digits s h.2

theorem ident_exclusion (s : GoString) (h : s.all isIdentifierCharacter = true) :
    (46 : Byte) ∉ s ∧ (43 : Byte) ∉ s := by
  rw [List.all_eq_true] at h
  exact ⟨fun hm => (isIdentifierCharacter_exclusion _ (h _ hm)).1 rfl,
    fun hm => (isIdentifierCharacter_exclusion _ (h _ hm)).2 rfl⟩

theorem except_bind_ok_iff {α β : Type} (x : Except Error α) (f : α → Except Error β) (b : β) :
    x.bind f = .ok b ↔ ∃ a, x = .ok a ∧ f a = .ok b := by
  cases x with
  | error e => simp [Except.bind]
  | ok a => simp [Except.bind]

theorem render_eq (t : SemVerText) :
    t.render = t.major ++ 46 :: (t.minor ++ 46 ::
      ((t.patch ++ (if t.preRelease = [] then [] else 45 :: dotSeparated t.preRelease)) ++
        (if t.build = [] then [] else 43 :: dotSeparated t.build))) := by
  simp [SemVerText.render, List.append_assoc]

theorem preRelease_mapM_ok_iff (l : List GoString) (r : List PRVersion) :
    l.mapM NewPRVersion = .ok r ↔
      (∀ a ∈ l, isPreReleaseIdentifier a = true ∧
        (isNumericIdentifier a = true → decimalValue a < 2 ^ 64)) ∧ r = l.map preReleaseOf :=
  mapM_ok_iff NewPRVersion _ preReleaseOf
    (fun a b => by rw [newPRVersion_ok_iff, and_assoc]) l r

theorem build_mapM_ok_iff (l r : List GoString) :
    l.mapM parseBuild = .ok r ↔ (∀ a ∈ l, isBuildIdentifier a = true) ∧ r = l := by
  have h := mapM_ok_iff parseBuild (fun a => isBuildIdentifier a = true) id
    (fun a b => parseBuild_ok_iff a b) l r
  simpa using h

theorem parseVersion_ok_of_conforms (t : SemVerText) (hv : t.valid = true)
    (hf : t.fitsUint64 = true) : parseVersion t.render = .ok t.version := by
  simp only [SemVerText.valid, Bool.and_eq_true, List.all_eq_true] at hv
  obtain ⟨⟨⟨⟨hmaj, hmin⟩, hpat⟩, hpre⟩, hbuild⟩ := hv
  simp only [SemVerText.fitsUint64, Bool.and_eq_true, List.all_eq_true, decide_eq_true_eq,
    Bool.or_eq_true, Bool.not_eq_true'] at hf
  obtain ⟨⟨⟨fmaj, fmin⟩, fpat⟩, fpre⟩ := hf
  have hne : t.render ≠ [] := by
    rw [render_eq]
    have := ((isNumericIdentifier_iff t.major).mp hmaj).1
    simp [this]
  have hpre46 : ∀ l ∈ t.preRelease, (46 : Byte) ∉ l := fun l hl =>
    (ident_exclusion l (preRelease_all_ident l (hpre l hl))).1
  have hbuild46 : ∀ l ∈ t.build, (46 : Byte) ∉ l := fun l hl =>
    (ident_exclusion l (build_all_ident l (hbuild l hl))).1
  have h43 : (43 : Byte) ∉
      t.patch ++ (if t.preRelease = [] then [] else 45 :: dotSeparated t.preRelease) := by
    intro hm
    rw [List.mem_append] at hm
    rcases hm with hm | hm
    · exact (numeric_exclusion t.patch hpat).2.1 hm
    · by_cases hp : t.preRelease = []
      · simp [hp] at hm
      · rw [if_neg hp, List.mem_cons] at hm
        rcases hm with hm | hm
        · revert hm
          decide
        · rcases mem_dotSeparated 43 _ hm with hm | ⟨l, hl, hm⟩
          · revert hm
            decide
          · exact (ident_exclusion l (preRelease_all_ident l (hpre l hl))).2 hm
  have hsplit : splitN3 t.render = [t.major, t.minor,
      (t.patch ++ (if t.preRelease = [] then [] else 45 :: dotSeparated t.preRelease)) ++
        (if t.build = [] then [] else 43 :: dotSeparated t.build)] :=
    (splitN3_eq_three_iff _ _ _ _).mpr
      ⟨render_eq t, (numeric_exclusion _ hmaj).1, (numeric_exclusion _ hmin).1⟩
  rw [parseVersion_of_split _ _ _ _ hne hsplit, cutBuild_render _ _ h43 hbuild46]
  dsimp only
  rw [cutPreRelease_render _ _ (numeric_exclusion _ hpat).2.2 hpre46]
  dsimp only
  rw [(parseNumber_ok_iff _ _ t.major _).mpr ⟨hmaj, fmaj, rfl⟩,
    (parseNumber_ok_iff _ _ t.minor _).mpr ⟨hmin, fmin, rfl⟩,
    (parseNumber_ok_iff _ _ t.patch _).mpr ⟨hpat, fpat, rfl⟩,
    (preRelease_mapM_ok_iff t.preRelease _).mpr ⟨fun a ha => ⟨hpre a ha, fun hn => by
      rcases fpre a ha with h | h
      · rw [hn] at h
        cases h
      · exact h⟩, rfl⟩,
    (build_mapM_ok_iff t.build _).mpr ⟨hbuild, rfl⟩]
  rfl

theorem conforms_of_parseVersion_ok (s : GoString) (v : Version) (h : parseVersion s = .ok v) :
    ∃ t : SemVerText, t.valid = true ∧ t.fitsUint64 = true ∧ t.render = s ∧ t.version = v := by
  have hs : s ≠ [] := by
    rintro rfl
    simp [parseVersion] at h
  have hlen : ¬ s.length = 0 := by simpa using hs
  obtain ⟨major, minor, rest, h3⟩ : ∃ major minor rest, splitN3 s = [major, minor, rest] := by
    unfold parseVersion at h
    rw [if_neg hlen] at h
    split at h
    · exact ⟨_, _, _, by assumption⟩
    · cases h
  rw [parseVersion_of_split s _ _ _ hs h3] at h
  obtain ⟨mj, hmj, h⟩ := (except_bind_ok_iff _ _ _).mp h
  obtain ⟨mn, hmn, h⟩ := (except_bind_ok_iff _ _ _).mp h
  obtain ⟨pt, hpt, h⟩ := (except_bind_ok_iff _ _ _).mp h
  obtain ⟨pre, hpre, h⟩ := (except_bind_ok_iff _ _ _).mp h
  obtain ⟨build, hbuild, h⟩ := (except_bind_ok_iff _ _ _).mp h
  obtain ⟨hmaj, fmaj, rfl⟩ := (parseNumber_ok_iff _ _ _ _).mp hmj
  obtain ⟨hmin, fmin, rfl⟩ := (parseNumber_ok_iff _ _ _ _).mp hmn
  obtain ⟨hpat, fpat, rfl⟩ := (parseNumber_ok_iff _ _ _ _).mp hpt
  obtain ⟨apre, rfl⟩ := (preRelease_mapM_ok_iff _ _).mp hpre
  obtain ⟨abuild, rfl⟩ := (build_mapM_ok_iff _ _).mp hbuild
  simp only [Except.ok.injEq] at h
  refine ⟨⟨major, minor, (cutPreRelease (cutBuild rest).1).1,
    (cutPreRelease (cutBuild rest).1).2, (cutBuild rest).2⟩, ?_, ?_, ?_, ?_⟩
  · simp only [SemVerText.valid, Bool.and_eq_true, List.all_eq_true]
    exact ⟨⟨⟨⟨hmaj, hmin⟩, hpat⟩, fun a ha => (apre a ha).1⟩, abuild⟩
  · simp only [SemVerText.fitsUint64, Bool.and_eq_true, List.all_eq_true, decide_eq_true_eq,
      Bool.or_eq_true, Bool.not_eq_true']
    refine ⟨⟨⟨fmaj, fmin⟩, fpat⟩, fun a ha => ?_⟩
    by_cases hn : isNumericIdentifier a = true
    · exact Or.inr ((apre a ha).2 hn)
    · exact Or.inl (by simpa using hn)
  · rw [render_eq]
    dsimp only
    rw [← render_cutPreRelease, ← render_cutBuild]
    exact ((splitN3_eq_three_iff _ _ _ _).mp h3).1.symm
  · exact h

theorem parseVersion_ok_iff (s : GoString) (v : Version) :
    parseVersion s = .ok v ↔
      ∃ t : SemVerText, t.valid = true ∧ t.fitsUint64 = true ∧ t.render = s ∧ t.version = v := by
  constructor
  · exact conforms_of_parseVersion_ok s v
  · rintro ⟨t, hv, hf, rfl, rfl⟩
    exact parseVersion_ok_of_conforms t hv hf

theorem semverMake_snd_none_iff (s : GoString) :
    (semverMake s).2 = none ↔
      ∃ t : SemVerText, t.valid = true ∧ t.fitsUint64 = true ∧ t.render = s := by
  unfold semverMake
  cases h : parseVersion s with
  | error e =>
      simp only [reduceCtorEq, false_iff, not_exists, not_and]
      intro t hv hf hr
      rw [← hr, parseVersion_ok_of_conforms t hv hf] at h
      cases h
  | ok v =>
      obtain ⟨t, hv, hf, hr, _⟩ := conforms_of_parseVersion_ok s v h
      simp only [true_iff]
      exact ⟨t, hv, hf, hr⟩

theorem semverMake_of_conforms (t : SemVerText) (hv : t.valid = true)
    (hf : t.fitsUint64 = true) : semverMake t.render = (t.version, none) := by
  unfold semverMake
  rw [parseVersion_ok_of_conforms t hv hf]

theorem semverMake_of_not_conforms (s : GoString)
    (h : ¬ ∃ t : SemVerText, t.valid = true ∧ t.fitsUint64 = true ∧ t.render = s) :
    ∃ err, semverMake s = (Version.zero, some err) ∧ parseVersion s = .error err := by
  unfold semverMake
  cases hp : parseVersion s with
  | error e => exact ⟨e, rfl, rfl⟩
  | ok v =>
      obtain ⟨t, hv, hf, hr, _⟩ := conforms_of_parseVersion_ok s v hp
      exact absurd ⟨t, hv, hf, hr⟩ h

/-! ## Theorems -/

/-- C1: `p.Equal(q)` is true exactly when the two wire keys hold the same byte
sequence and the two emails are the same string. -/
theorem equal_iff_wire_and_email (p q : Profile) :
    p.Equal q = true ↔
      p.SSHWirePublicKey.bytes = q.SSHWirePublicKey.bytes ∧ p.Email = q.Email := by
  simp [Profile.Equal, bytesEqual]

/-- C2: when the wire key parses, `AuthorizedKeyString` is the result of
`AuthorizedKeyStringWithoutEmail`, one space, and the email with every space
byte removed (all other bytes kept, in order); for the email
`a b@example.com` the trailing segment is `ab@example.com`. -/
theorem authorizedKeyString_appends_email (L : SSHPackage) (p : Profile) (pk : L.PublicKey)
    (hpk : p.SSHPublicKey L = .ok pk) :
    (p.AuthorizedKeyStringWithoutEmail L).2 = none ∧
    p.AuthorizedKeyString L =
      ((p.AuthorizedKeyStringWithoutEmail L).1 ++ str " " ++ p.Email.filter (fun b => b != 32),
        none) ∧
    (p.Email = str "a b@example.com" →
      p.AuthorizedKeyString L =
        ((p.AuthorizedKeyStringWithoutEmail L).1 ++ str " " ++ str "ab@example.com", none)) := by
  have h := withoutEmail_of_ok L p pk hpk
  have h2 : p.AuthorizedKeyString L =
      ((p.AuthorizedKeyStringWithoutEmail L).1 ++ str " " ++ p.Email.filter (fun b => b != 32),
        none) := by
    simp only [Profile.AuthorizedKeyString, h, replace_space, List.append_assoc]
  refine ⟨by rw [h], h2, ?_⟩
  intro he
  rw [h2, he]
  rfl

/-- C2 at the sample Ed25519 profile, whose email has an interior space. -/
theorem authorizedKeyString_appends_email_witness :
    sampleProfile.SSHPublicKey ed25519Package = .ok (sampleWireKey.drop 19) ∧
    sampleProfile.AuthorizedKeyString ed25519Package =
      (str "ssh-ed25519 AAAAC3NzaC1lZDI1NTE5AAAAIAECAwQFBgcICQoLDA0ODxAREhMUFRYXGBkaGxwdHh8g ab@example.com",
        none) :=
  ⟨rfl, ((authorizedKeyString_appends_email ed25519Package sampleProfile _ rfl).2.2 rfl).trans
    (by decide)⟩

/-- C3: when the wire key parses to `pk`, `AuthorizedKeyStringWithoutEmail`
succeeds with `pk.Type()`, one space, and the padded standard base64 text of
the whole wire key; that text has no space, is four characters per started
group of three bytes, and decodes back to the wire bytes. For a type name
without a space (as every algorithm name of the ssh package is) the line has
exactly one space and splits into exactly the type and the base64 text. -/
theorem authorizedKeyStringWithoutEmail_format (L : SSHPackage) (p : Profile)
    (pk : L.PublicKey) (hpk : p.SSHPublicKey L = .ok pk) :
    p.AuthorizedKeyStringWithoutEmail L =
      (L.keyType pk ++ str " " ++ EncodeToString p.SSHWirePublicKey.bytes, none) ∧
    DecodeString (EncodeToString p.SSHWirePublicKey.bytes) = some p.SSHWirePublicKey.bytes ∧
    (32 : Byte) ∉ EncodeToString p.SSHWirePublicKey.bytes ∧
    (EncodeToString p.SSHWirePublicKey.bytes).length =
      4 * ((p.SSHWirePublicKey.bytes.length + 2) / 3) ∧
    ((32 : Byte) ∉ L.keyType pk →
      (p.AuthorizedKeyStringWithoutEmail L).1.count 32 = 1 ∧
      splitOn 32 (p.AuthorizedKeyStringWithoutEmail L).1 =
        [L.keyType pk, EncodeToString p.SSHWirePublicKey.bytes] ∧
      ((splitOn 32 (p.AuthorizedKeyStringWithoutEmail L).1).get? 1).bind DecodeString =
        some p.SSHWirePublicKey.bytes) := by
  have h := withoutEmail_of_ok L p pk hpk
  have hb := space_not_mem_encodeToString p.SSHWirePublicKey.bytes
  refine ⟨h, decodeString_encodeToString _, hb, length_encodeToString _, ?_⟩
  intro hk
  have hs : splitOn 32 (p.AuthorizedKeyStringWithoutEmail L).1 =
      [L.keyType pk, EncodeToString p.SSHWirePublicKey.bytes] := by
    rw [h, str_space]
    simp only [List.append_assoc, List.singleton_append]
    rw [splitOn_append 32 _ _ hk, splitOn_of_not_mem 32 _ hb]
  refine ⟨?_, hs, ?_⟩
  · rw [h, str_space]
    simp [List.count_append, List.count_eq_zero_of_not_mem hk, List.count_eq_zero_of_not_mem hb]
  · rw [hs]
    exact decodeString_encodeToString _

/-- C3 at the sample Ed25519 profile. -/
theorem authorizedKeyStringWithoutEmail_format_witness :
    sampleProfile.SSHPublicKey ed25519Package = .ok (sampleWireKey.drop 19) ∧
    sampleProfile.AuthorizedKeyStringWithoutEmail ed25519Package =
      (str "ssh-ed25519 AAAAC3NzaC1lZDI1NTE5AAAAIAECAwQFBgcICQoLDA0ODxAREhMUFRYXGBkaGxwdHh8g",
        none) ∧
    splitOn 32 (sampleProfile.AuthorizedKeyStringWithoutEmail ed25519Package).1 =
      [str "ssh-ed25519",
        str "AAAAC3NzaC1lZDI1NTE5AAAAIAECAwQFBgcICQoLDA0ODxAREhMUFRYXGBkaGxwdHh8g"] :=
  ⟨rfl,
    (authorizedKeyStringWithoutEmail_format ed25519Package sampleProfile _ rfl).1.trans
      (by decide),
    ((authorizedKeyStringWithoutEmail_format ed25519Package sampleProfile _ rfl).2.2.2.2
      (by decide)).2.1.trans (by decide)⟩

/-- C4: `PublicKeyFingerprint` is a total function (no error result) returning
the SHA-256 digest of the raw wire bytes, parsed or not; the digest is exactly
32 bytes long, and profiles with the same wire bytes get the same fingerprint
whatever their other fields. -/
theorem publicKeyFingerprint_is_sha256 (p q : Profile) :
    p.PublicKeyFingerprint = Sum256 p.SSHWirePublicKey.bytes ∧
    p.PublicKeyFingerprint.length = 32 ∧
    (p.SSHWirePublicKey.bytes = q.SSHWirePublicKey.bytes →
      p.PublicKeyFingerprint = q.PublicKeyFingerprint) := by
  refine ⟨rfl, length_sum256 _, ?_⟩
  intro h
  simp only [Profile.PublicKeyFingerprint, h]

/-- C4 at two profiles that share the three-byte wire key `abc`, which is no
SSH key, and differ in email and PGP key. -/
theorem publicKeyFingerprint_is_sha256_witness :
    hexEncodeToString
        (Profile.PublicKeyFingerprint
          { SSHWirePublicKey := .mk (str "abc"), Email := [], PGPPublicKey := none }) =
      str "ba7816bf8f01cfea414140de5dae2223b00361a396177a9cb410ff61f20015ad" ∧
    Profile.PublicKeyFingerprint
        { SSHWirePublicKey := .mk (str "abc"), Email := [], PGPPublicKey := none } =
      Profile.PublicKeyFingerprint
        { SSHWirePublicKey := .mk (str "abc"), Email := str "x@y", PGPPublicKey := some .nil } :=
  ⟨by decide!,
    (publicKeyFingerprint_is_sha256
      { SSHWirePublicKey := .mk (str "abc"), Email := [], PGPPublicKey := none }
      { SSHWirePublicKey := .mk (str "abc"), Email := str "x@y", PGPPublicKey := some .nil }).2.2
      rfl⟩

/-- C5 (amended): whenever the packets of the PGP key read successfully up to a
first packet that `packet.Read` returns as a `*packet.PublicKey` (the `n`
packets before it being of other types), `PGPPublicKeySHA1Fingerprint` returns,
once allowed more than `n` reads, the hexadecimal text of that packet's 20-byte
fingerprint and no error; the text has 40 characters, all among `0-9a-f`; for a
stream made of encodings of packets of other types, an encoding of such a
packet and any further bytes, the result is the same whatever those further
bytes are. With the reader of the packet package the packets returned as
`*packet.PublicKey` are exactly the packets with tag 6 (Public-Key) or tag 14
(Public-Subkey) whose contents parse as a key of version 4; and every version 4
RSA key packet of either tag (old format, two length octets) is one, its
fingerprint being SHA-1 over `0x99`, the two-octet length and the contents. -/
theorem pgpFingerprint_first_key_packet (Read : PacketRead) (fuel : Nat) (fp : Bytes20) :
    (∀ (p : Profile) (key : ByteSlice) (n : Nat) (reader rest : List Byte),
      p.PGPPublicKey = some key → skipOthers Read n key.bytes = some reader →
      Read reader = .ok (.PublicKey fp, rest) → n < fuel →
      p.PGPPublicKeySHA1Fingerprint Read fuel = some (hexEncodeToString fp.elems, none)) ∧
    (hexEncodeToString fp.elems).length = 40 ∧
    (∀ c ∈ hexEncodeToString fp.elems, c ∈ str "0123456789abcdef") ∧
    (∀ (p : Profile) (encs : List (List Byte)) (encPK tail : List Byte),
      (∀ e ∈ encs, Encodes Read e .Other) → Encodes Read encPK (.PublicKey fp) →
      encs.length < fuel →
      p.PGPPublicKey = some (.mk (encs.flatten ++ encPK ++ tail)) →
      p.PGPPublicKeySHA1Fingerprint Read fuel = some (hexEncodeToString fp.elems, none)) ∧
    (∀ (input rest : List Byte),
      packetRead input = .ok (.PublicKey fp, rest) ↔
        ∃ (tagByte : Byte) (r : List Byte) (length : Nat) (body : List Byte),
          input = tagByte :: r ∧ tagByte &&& 0x80 ≠ 0 ∧
          readLength tagByte r = some (length, body) ∧
          (packetTag tagByte = 6 ∨ packetTag tagByte = 14) ∧ length ≤ 4096 ∧
          parsePublicKey (body.take length) = .ok fp ∧ rest = body.drop length) ∧
    (∀ contents : List Byte, parsePublicKey contents = .ok fp → contents.head? = some 4) ∧
    (∀ (tagByte t1 t2 t3 t4 algo : Byte) (n e : parsedMPI),
      tagByte = 0x99 ∨ tagByte = 0xB9 → algo = 1 ∨ algo = 2 ∨ algo = 3 →
      n.wellFormed → e.wellFormed → e.bytes.length ≤ 3 →
      10 + n.bytes.length + e.bytes.length ≤ 4096 →
      Encodes packetRead
        (tagByte :: UInt8.ofNat ((10 + n.bytes.length + e.bytes.length) >>> 8) ::
          UInt8.ofNat (10 + n.bytes.length + e.bytes.length) ::
          4 :: t1 :: t2 :: t3 :: t4 :: algo :: (writeMPI n ++ writeMPI e))
        (.PublicKey
          (sha1Sum (0x99 :: UInt8.ofNat ((10 + n.bytes.length + e.bytes.length) >>> 8) ::
            UInt8.ofNat (10 + n.bytes.length + e.bytes.length) ::
            4 :: t1 :: t2 :: t3 :: t4 :: algo :: (writeMPI n ++ writeMPI e))))) := by
  refine ⟨?_, ?_, hexEncodeToString_mem _, ?_, ?_, ?_, ?_⟩
  · intro p key n reader rest hkey hskip hpk hfuel
    simp only [Profile.PGPPublicKeySHA1Fingerprint, hkey]
    exact loop_found Read n fuel _ reader rest fp hskip hpk hfuel
  · rw [length_hexEncodeToString, fp.size_eq]
  · intro p encs encPK tail hothers hpk hfuel hkey
    simp only [Profile.PGPPublicKeySHA1Fingerprint, hkey, ByteSlice.bytes]
    refine loop_found Read encs.length fuel _ (encPK ++ tail) tail fp ?_ (hpk tail) hfuel
    rw [List.append_assoc]
    exact skipOthers_encodings Read encs _ hothers
  · intro input rest
    exact packetRead_publicKey_iff input fp rest
  · intro contents h
    exact parsePublicKey_version contents fp h
  · intro tagByte t1 t2 t3 t4 algo n e ht ha hn he he3 hl
    rw [← setFingerPrintAndKeyId_rsa]
    exact encodes_rsaKeyPacket tagByte t1 t2 t3 t4 algo n e ht ha hn he he3 hl

/-- C5 (amended) at the sample stream: a User ID packet and a version 3
Public-Key packet, which are passed over, the version 4 Public-Key packet,
whose fingerprint is returned, and bytes after it, which may be a Public-Subkey
packet or anything else. A stream whose one packet is a version 4 Public-Key
packet with an EdDSA key does not read successfully, and there is no result
for it. -/
theorem pgpFingerprint_first_key_packet_witness :
    pgpSampleProfile.PGPPublicKeySHA1Fingerprint packetRead 3 =
      some (str "73ea75fa3fac5b5250078a397b369850d3188439", none) ∧
    (pgpProfile (sampleUserID ++ sampleV3KeyPacket ++ samplePublicKeyPacket ++
        [0, 1, 2])).PGPPublicKeySHA1Fingerprint packetRead 3 =
      some (str "73ea75fa3fac5b5250078a397b369850d3188439", none) ∧
    packetRead sampleEdDSAKeyPacket =
      .error (str "openpgp: unsupported feature: public key type: 22") ∧
    (pgpProfile sampleEdDSAKeyPacket).PGPPublicKeySHA1Fingerprint packetRead 3 =
      some ([], some (str "no pgp public key packet found")) :=
  have t := pgpFingerprint_first_key_packet packetRead 3 sampleFingerprint
  have hhex : hexEncodeToString sampleFingerprint.elems =
      str "73ea75fa3fac5b5250078a397b369850d3188439" := by decide!
  ⟨hhex ▸ t.1 pgpSampleProfile _ 2 (samplePublicKeyPacket ++ sampleSubkeyPacket)
      sampleSubkeyPacket rfl (by decide!) (encodes_samplePublicKeyPacket sampleSubkeyPacket)
      (by decide),
    hhex ▸ t.2.2.2.1
      (pgpProfile (sampleUserID ++ sampleV3KeyPacket ++ samplePublicKeyPacket ++ [0, 1, 2]))
      [sampleUserID, sampleV3KeyPacket] samplePublicKeyPacket [0, 1, 2]
      (fun e he => by
        rcases List.mem_pair.mp he with h | h
        · rw [h]
          exact encodes_sampleUserID
        · rw [h]
          exact encodes_sampleV3KeyPacket)
      encodes_samplePublicKeyPacket (by decide) (by simp [pgpProfile]),
    rfl, by decide⟩

/-- C5 fails as stated: in a stream of a Public-Subkey packet (tag 14) followed
by a Public-Key packet (tag 6), the subkey packet, which is not a Public-Key
packet, is not skipped: `packet.Read` returns it as a `*packet.PublicKey`, and
`PGPPublicKeySHA1Fingerprint` returns its fingerprint, not the fingerprint of
the first Public-Key packet of the stream. And in a stream of a version 3
Public-Key packet followed by a version 4 Public-Key packet, the first
Public-Key packet is passed over and the fingerprint of the second is
returned. -/
theorem pgpFingerprint_subkey_not_skipped :
    packetTag (sampleSubkeyPacket.headD 0) = 14 ∧
    packetTag (samplePublicKeyPacket.headD 0) = 6 ∧
    packetRead (sampleSubkeyPacket ++ samplePublicKeyPacket) =
      .ok (.PublicKey sampleSubkeyFingerprint, samplePublicKeyPacket) ∧
    packetRead samplePublicKeyPacket = .ok (.PublicKey sampleFingerprint, []) ∧
    hexEncodeToString sampleFingerprint.elems =
      str "73ea75fa3fac5b5250078a397b369850d3188439" ∧
    (pgpProfile (sampleSubkeyPacket ++ samplePublicKeyPacket)).PGPPublicKeySHA1Fingerprint
        packetRead 2 =
      some (str "e85bfecb78e3f694986c67ecc76d2287dd7d475a", none) ∧
    (pgpProfile (sampleSubkeyPacket ++ samplePublicKeyPacket)).PGPPublicKeySHA1Fingerprint
        packetRead 2 ≠
      some (hexEncodeToString sampleFingerprint.elems, none) ∧
    packetTag (sampleV3KeyPacket.headD 0) = 6 ∧
    packetRead (sampleV3KeyPacket ++ samplePublicKeyPacket) =
      .ok (.Other, samplePublicKeyPacket) ∧
    (pgpProfile (sampleV3KeyPacket ++ samplePublicKeyPacket)).PGPPublicKeySHA1Fingerprint
        packetRead 2 =
      some (hexEncodeToString sampleFingerprint.elems, none) :=
  ⟨by decide, by decide, rfl, rfl, by decide!, by decide!, by decide!, by decide, rfl,
    by decide!⟩

/-- C6 (as the code has it): whenever a call of `packet.Read` fails before any
packet of type `*packet.PublicKey` was returned, for whatever reason (the
stream is exhausted, the empty stream included, or a header is cut off or
invalid), `PGPPublicKeySHA1Fingerprint` returns the empty string and the one
error `no pgp public key packet found`; the error of `packet.Read` is dropped. -/
theorem pgpFingerprint_read_error (Read : PacketRead) (p : Profile) (key : ByteSlice)
    (n fuel : Nat) (reader : List Byte) (e : Error)
    (hkey : p.PGPPublicKey = some key) (hskip : skipOthers Read n key.bytes = some reader)
    (herr : Read reader = .error e) (hfuel : n < fuel) :
    p.PGPPublicKeySHA1Fingerprint Read fuel =
      some ([], some (str "no pgp public key packet found")) := by
  simp only [Profile.PGPPublicKeySHA1Fingerprint, hkey]
  exact loop_failed Read n fuel _ reader e hskip herr hfuel

/-- C6 at a stream of one User ID packet, exhausted at the second read. -/
theorem pgpFingerprint_read_error_witness :
    skipOthers packetRead 1 sampleUserID = some [] ∧
    packetRead [] = .error (str "EOF") ∧
    (pgpProfile sampleUserID).PGPPublicKeySHA1Fingerprint packetRead 2 =
      some ([], some (str "no pgp public key packet found")) :=
  ⟨by decide, rfl,
    pgpFingerprint_read_error packetRead (pgpProfile sampleUserID) (.mk sampleUserID) 1 2 []
      (str "EOF") rfl (by decide) rfl (by decide)⟩

/-- C6 fails as stated: a stream whose first header octet is invalid (no MSB)
and a stream cut off inside a header make `packet.Read` fail with errors other
than the end of the stream, and the function still reports exactly what it
reports for the empty stream, `no pgp public key packet found`. -/
theorem pgpFingerprint_malformed_not_distinguished :
    packetRead [0x00] =
      .error (str "openpgp: invalid data: tag byte does not have MSB set") ∧
    packetRead [0x98] = .error (str "unexpected EOF") ∧
    packetRead [] = .error (str "EOF") ∧
    (pgpProfile []).PGPPublicKeySHA1Fingerprint packetRead 1 =
      some ([], some (str "no pgp public key packet found")) ∧
    (pgpProfile [0x00]).PGPPublicKeySHA1Fingerprint packetRead 1 =
      (pgpProfile []).PGPPublicKeySHA1Fingerprint packetRead 1 ∧
    (pgpProfile [0x98]).PGPPublicKeySHA1Fingerprint packetRead 1 =
      (pgpProfile []).PGPPublicKeySHA1Fingerprint packetRead 1 :=
  ⟨rfl, rfl, rfl, by decide, by decide, by decide⟩

/-- C7: for a profile with a PGP key holding the bytes `B` (any bytes, none at
all included) `AsciiArmorPGPPublicKey` succeeds, and decoding its text gives a
block of type `PGP PUBLIC KEY BLOCK`, with the Krypton comment header, whose
body is exactly `B`. -/
theorem asciiArmor_decode_roundtrip (p : Profile) (key : ByteSlice)
    (h : p.PGPPublicKey = some key) :
    p.AsciiArmorPGPPublicKey.2 = none ∧
    armorDecode p.AsciiArmorPGPPublicKey.1 =
      some { blockType := str "PGP PUBLIC KEY BLOCK", Header := KRYPTON_ASCII_ARMOR_HEADERS,
             Body := key.bytes } := by
  rw [asciiArmor_of_some p key h]
  exact ⟨rfl, armorDecode_armorEncode key.bytes⟩

/-- C7 at a profile whose PGP key is the empty byte sequence. -/
theorem asciiArmor_decode_roundtrip_witness :
    Profile.AsciiArmorPGPPublicKey
        { SSHWirePublicKey := .nil, Email := [], PGPPublicKey := some (.mk []) } =
      (str "-----BEGIN PGP PUBLIC KEY BLOCK-----\nComment: Created with Krypton\n\n\n=twTO\n-----END PGP PUBLIC KEY BLOCK-----",
        none) ∧
    armorDecode (Profile.AsciiArmorPGPPublicKey
        { SSHWirePublicKey := .nil, Email := [], PGPPublicKey := some (.mk []) }).1 =
      some { blockType := str "PGP PUBLIC KEY BLOCK", Header := KRYPTON_ASCII_ARMOR_HEADERS,
             Body := [] } :=
  ⟨by decide,
    (asciiArmor_decode_roundtrip
      { SSHWirePublicKey := .nil, Email := [], PGPPublicKey := some (.mk []) } (.mk []) rfl).2⟩

/-- C8: for a profile with a PGP key holding the bytes `B` the armored text is,
line by line, the begin marker, the header `Comment: Created with Krypton`, an
empty line, the standard base64 text of `B` cut into lines of at most 64
characters (every line but the last exactly 64; their concatenation is the
base64 text, so an empty `B` gives one empty line), the line `=` followed by
the base64 text of the three CRC-24 bytes of `B`, and the end marker, with no
newline after it; two profiles holding the same PGP bytes get the same text. -/
theorem asciiArmor_layout (p q : Profile) (key : ByteSlice) (h : p.PGPPublicKey = some key) :
    p.AsciiArmorPGPPublicKey =
      (joinLines
        ([str "-----BEGIN PGP PUBLIC KEY BLOCK-----", str "Comment: Created with Krypton", []] ++
          wrapLines 64 (EncodeToString key.bytes) ++
          [StdPadding :: EncodeToString (checksumBytes (crc24 crc24Init key.bytes)),
            str "-----END PGP PUBLIC KEY BLOCK-----"]), none) ∧
    splitOn 10 p.AsciiArmorPGPPublicKey.1 =
      [str "-----BEGIN PGP PUBLIC KEY BLOCK-----", str "Comment: Created with Krypton", []] ++
        wrapLines 64 (EncodeToString key.bytes) ++
        [StdPadding :: EncodeToString (checksumBytes (crc24 crc24Init key.bytes)),
          str "-----END PGP PUBLIC KEY BLOCK-----"] ∧
    (wrapLines 64 (EncodeToString key.bytes)).flatten = EncodeToString key.bytes ∧
    (∀ l ∈ wrapLines 64 (EncodeToString key.bytes), l.length ≤ 64) ∧
    (∀ l ∈ (wrapLines 64 (EncodeToString key.bytes)).dropLast, l.length = 64) ∧
    (checksumBytes (crc24 crc24Init key.bytes)).length = 3 ∧
    (∀ key2 : ByteSlice, q.PGPPublicKey = some key2 → key2.bytes = key.bytes →
      q.AsciiArmorPGPPublicKey = p.AsciiArmorPGPPublicKey) := by
  have hp := asciiArmor_of_some p key h
  refine ⟨?_, ?_, wrapLines_flatten _ _, wrapLines_length_le _ _ (by decide),
    wrapLines_dropLast _ _, rfl, ?_⟩
  · rw [hp, armorEncode_eq_joinLines]
    rfl
  · rw [hp, armorEncode_eq_joinLines]
    exact splitOn_armorLines key.bytes
  · intro key2 hq hb
    rw [hp, asciiArmor_of_some q key2 hq, hb]

/-- C8 at the sample profile with the PGP bytes 1, 2, 3, compared with a
profile that holds the same PGP bytes and another wire key and email, and at a
PGP key of 49 zero bytes, whose 68 base64 characters fill two lines. -/
theorem asciiArmor_layout_witness :
    armorSampleProfile.AsciiArmorPGPPublicKey =
      (str "-----BEGIN PGP PUBLIC KEY BLOCK-----\nComment: Created with Krypton\n\nAQID\n=Z2GT\n-----END PGP PUBLIC KEY BLOCK-----",
        none) ∧
    Profile.AsciiArmorPGPPublicKey { sampleProfile with PGPPublicKey := some (.mk [1, 2, 3]) } =
      armorSampleProfile.AsciiArmorPGPPublicKey ∧
    splitOn 10 (pgpProfile (List.replicate 49 0)).AsciiArmorPGPPublicKey.1 =
      [str "-----BEGIN PGP PUBLIC KEY BLOCK-----", str "Comment: Created with Krypton", [],
        str "AAAAAAAAAAAAAAAAAAAAAAAAAAAAAAAAAAAAAAAAAAAAAAAAAAAAAAAAAAAAAAAA", str "AA==",
        str "=2aSs", str "-----END PGP PUBLIC KEY BLOCK-----"] :=
  have t := asciiArmor_layout armorSampleProfile
    { sampleProfile with PGPPublicKey := some (.mk [1, 2, 3]) } (.mk [1, 2, 3]) rfl
  have u := asciiArmor_layout (pgpProfile (List.replicate 49 0)) armorSampleProfile
    (.mk (List.replicate 49 0)) rfl
  ⟨t.1.trans (by decide!), t.2.2.2.2.2.2 (.mk [1, 2, 3]) rfl rfl, u.2.1.trans (by decide!)⟩

/-- C9: with a nil `PGPPublicKey`, `AsciiArmorPGPPublicKey` returns the empty
string and the error `no pgp public key`, whatever the wire key and email
are. -/
theorem asciiArmor_nil_key (p : Profile) (h : p.PGPPublicKey = none) :
    p.AsciiArmorPGPPublicKey = ([], some (str "no pgp public key")) := by
  simp [Profile.AsciiArmorPGPPublicKey, h]

/-- C9 at the sample profile, which has a wire key and an email and no PGP key. -/
theorem asciiArmor_nil_key_witness :
    sampleProfile.PGPPublicKey = none ∧
    sampleProfile.AsciiArmorPGPPublicKey = ([], some (str "no pgp public key")) :=
  ⟨rfl, asciiArmor_nil_key sampleProfile rfl⟩

/-- C10: a wire key that `ssh.ParsePublicKey` rejects makes `SSHPublicKey` fail
and both authorized-keys functions fail with that same error and the empty
string. A key shorter than the four-byte length or whose declared name length
exceeds the bytes that follow is rejected, with the short-read error, whatever
the per-algorithm parsers are. -/
theorem malformed_wire_key_fails (L : SSHPackage) (p : Profile) :
    (∀ err : Error, p.SSHPublicKey L = .error err →
      p.AuthorizedKeyStringWithoutEmail L = ([], some err) ∧
      p.AuthorizedKeyString L = ([], some err)) ∧
    (p.SSHWirePublicKey.bytes.length < 4 → p.SSHPublicKey L = .error errShortRead) ∧
    (4 ≤ p.SSHWirePublicKey.bytes.length →
      (p.SSHWirePublicKey.bytes.length - 4) % 2 ^ 32 < bigEndianUint32 p.SSHWirePublicKey.bytes →
      p.SSHPublicKey L = .error errShortRead) := by
  refine ⟨?_, ?_, ?_⟩
  · intro err herr
    have h := withoutEmail_of_error L p err herr
    exact ⟨h, by simp [Profile.AuthorizedKeyString, h]⟩
  · intro h
    simp [Profile.SSHPublicKey, ParsePublicKey, parseString_short _ h]
  · intro h4 h
    simp [Profile.SSHPublicKey, ParsePublicKey, parseString_overlong _ h4 h]

/-- C10 at a three-byte key and at a key whose length field overruns the data. -/
theorem malformed_wire_key_fails_witness :
    (truncatedProfile.SSHPublicKey ed25519Package = .error errShortRead ∧
      truncatedProfile.AuthorizedKeyStringWithoutEmail ed25519Package = ([], some errShortRead) ∧
      truncatedProfile.AuthorizedKeyString ed25519Package = ([], some errShortRead)) ∧
    (overlongProfile.SSHPublicKey ed25519Package = .error errShortRead ∧
      overlongProfile.AuthorizedKeyStringWithoutEmail ed25519Package = ([], some errShortRead) ∧
      overlongProfile.AuthorizedKeyString ed25519Package = ([], some errShortRead)) :=
  have t := malformed_wire_key_fails ed25519Package truncatedProfile
  have o := malformed_wire_key_fails ed25519Package overlongProfile
  ⟨⟨t.2.1 (by decide), t.1 _ (t.2.1 (by decide))⟩,
    ⟨o.2.2 (by decide) (by decide), o.1 _ (o.2.2 (by decide) (by decide))⟩⟩

/-- C11: replacing the PGP keys of two profiles by any optional keys leaves
`Equal` unchanged; two profiles that differ only in their PGP key are equal. -/
theorem equal_ignores_pgp_key (p q : Profile) (k1 k2 : Option ByteSlice) :
    Profile.Equal { p with PGPPublicKey := k1 } { q with PGPPublicKey := k2 } = p.Equal q ∧
    Profile.Equal { p with PGPPublicKey := k1 } { p with PGPPublicKey := k2 } = true := by
  constructor
  · rfl
  · simp [Profile.Equal, bytesEqual]

/-- C12: when the collaborator call returned an error, `GetCachedLatestVersion`
and `GetLatestVersion` return that same error together with the zero version,
whatever the parser of versions is and whatever manifest came with the error:
the result does not depend on `semver.Make` or on the manifest, so no version
string is parsed and no parsed version is reported. -/
theorem collaborator_error_is_returned (Make Make2 : SemverMake)
    (versions versions2 : Versions) (err : Error) :
    GetCachedLatestVersion Make (versions, some err) = (Version.zero, some err) ∧
    GetLatestVersion Make (versions, some err) = (Version.zero, some err) ∧
    (GetCachedLatestVersion Make (versions, some err)).2 ≠ none ∧
    (GetLatestVersion Make (versions, some err)).2 ≠ none ∧
    GetCachedLatestVersion Make2 (versions2, some err) =
      GetCachedLatestVersion Make (versions, some err) ∧
    GetLatestVersion Make2 (versions2, some err) =
      GetLatestVersion Make (versions, some err) := by
  refine ⟨rfl, rfl, ?_, ?_, rfl, rfl⟩ <;> simp [GetCachedLatestVersion, GetLatestVersion]

/-- C12 at a cache miss and a failed fetch that come with a manifest whose
Linux entry would parse. -/
theorem collaborator_error_is_returned_witness :
    GetCachedLatestVersion semverMake (sampleVersions, some (str "cache miss")) =
      (Version.zero, some (str "cache miss")) ∧
    GetLatestVersion semverMake (sampleVersions, some (str "fetch failed")) =
      (Version.zero, some (str "fetch failed")) ∧
    semverMake sampleVersions.Linux =
      ({ Major := 2, Minor := 1, Patch := 0, Pre := [], Build := [] }, none) :=
  ⟨(collaborator_error_is_returned semverMake semverMake sampleVersions sampleVersions
      (str "cache miss")).1,
    (collaborator_error_is_returned semverMake semverMake sampleVersions sampleVersions
      (str "fetch failed")).2.1,
    by decide⟩

/-- C13 (amended): when the collaborator returned a manifest and no error,
`GetLatestVersion` and `GetCachedLatestVersion` return what `semver.Make`
returns for the manifest's Linux entry, for every implementation of
`semver.Make`. With the parser of the semver package they succeed if and only if
the Linux entry conforms to the semantic-versioning grammar (it is the text of
three numeric identifiers, dot-separated pre-release identifiers and
dot-separated build identifiers that the grammar admits) and its major, minor
and patch numbers and every numeric pre-release identifier are below 2^64; a
success implies conformance to the grammar; on success the returned version is
the parse of that Linux entry; otherwise they return the zero version and the
parser's error; and manifests with the same Linux entry give the same result
whatever the entries of the other platforms are. -/
theorem latest_version_iff_linux_entry_in_range (Make : SemverMake)
    (versions versions2 : Versions) :
    (GetLatestVersion Make (versions, none) = Make versions.Linux ∧
      GetCachedLatestVersion Make (versions, none) = Make versions.Linux) ∧
    (((GetLatestVersion semverMake (versions, none)).2 = none ↔
        ∃ t : SemVerText, t.valid = true ∧ t.fitsUint64 = true ∧ t.render = versions.Linux) ∧
      ((GetCachedLatestVersion semverMake (versions, none)).2 = none ↔
        ∃ t : SemVerText, t.valid = true ∧ t.fitsUint64 = true ∧ t.render = versions.Linux)) ∧
    ((GetLatestVersion semverMake (versions, none)).2 = none →
      ConformsToSemVer versions.Linux) ∧
    (∀ t : SemVerText, t.valid = true → t.fitsUint64 = true → t.render = versions.Linux →
      GetLatestVersion semverMake (versions, none) = (t.version, none) ∧
      GetCachedLatestVersion semverMake (versions, none) = (t.version, none)) ∧
    ((¬ ∃ t : SemVerText, t.valid = true ∧ t.fitsUint64 = true ∧ t.render = versions.Linux) →
      ∃ err, parseVersion versions.Linux = .error err ∧
        GetLatestVersion semverMake (versions, none) = (Version.zero, some err) ∧
        GetCachedLatestVersion semverMake (versions, none) = (Version.zero, some err)) ∧
    (versions2.Linux = versions.Linux →
      GetLatestVersion Make (versions2, none) = GetLatestVersion Make (versions, none) ∧
      GetCachedLatestVersion Make (versions2, none) =
        GetCachedLatestVersion Make (versions, none)) := by
  refine ⟨⟨rfl, rfl⟩, ⟨semverMake_snd_none_iff _, semverMake_snd_none_iff _⟩, ?_, ?_, ?_, ?_⟩
  · intro h
    obtain ⟨t, hv, _, hr⟩ := (semverMake_snd_none_iff versions.Linux).mp h
    exact ⟨t, hv, hr⟩
  · intro t hv hf hr
    have h := semverMake_of_conforms t hv hf
    rw [hr] at h
    exact ⟨h, h⟩
  · intro h
    obtain ⟨err, h1, h2⟩ := semverMake_of_not_conforms versions.Linux h
    exact ⟨err, h2, h1, h1⟩
  · intro h
    simp only [GetLatestVersion, GetCachedLatestVersion, h, and_self]

/-- C13 as stated fails: the Linux entry `18446744073709551616.0.0` conforms to
the semantic-versioning grammar, yet `GetLatestVersion` and
`GetCachedLatestVersion` fail on it, because the major number 2^64 is not a
`uint64`. -/
theorem latest_version_conforming_entry_refused :
    ConformsToSemVer hugeMajorVersions.Linux ∧
    GetLatestVersion semverMake (hugeMajorVersions, none) =
      (Version.zero, some (str
        "strconv.ParseUint: parsing \"18446744073709551616\": value out of range")) ∧
    GetCachedLatestVersion semverMake (hugeMajorVersions, none) =
      (Version.zero, some (str
        "strconv.ParseUint: parsing \"18446744073709551616\": value out of range")) :=
  ⟨⟨⟨str "18446744073709551616", str "0", str "0", [], []⟩, by decide, by decide⟩,
    by decide, by decide⟩

/-- C13 (amended) at concrete manifests: the Linux entry `1.2.3-rc.1+build.05`
gives version 1.2.3 with the pre-release identifiers `rc` and 1 and the build
identifiers `build` and `05`, whatever the other entries are, and the Linux
entry `2.1` fails although another platform's entry is well formed. -/
theorem latest_version_iff_linux_entry_in_range_witness :
    GetLatestVersion semverMake (preReleaseVersions, none) =
      ({ Major := 1, Minor := 2, Patch := 3,
         Pre := [{ VersionStr := str "rc", VersionNum := 0, IsNum := false },
                 { VersionStr := [], VersionNum := 1, IsNum := true }],
         Build := [str "build", str "05"] }, none) ∧
    GetCachedLatestVersion semverMake ({ Linux := str "1.2.3-rc.1+build.05", others := [] }, none) =
      GetCachedLatestVersion semverMake (preReleaseVersions, none) ∧
    (∃ err, parseVersion badLinuxVersions.Linux = .error err ∧
      GetLatestVersion semverMake (badLinuxVersions, none) = (Version.zero, some err) ∧
      GetCachedLatestVersion semverMake (badLinuxVersions, none) = (Version.zero, some err)) :=
  have t := latest_version_iff_linux_entry_in_range semverMake preReleaseVersions
    { Linux := str "1.2.3-rc.1+build.05", others := [] }
  have b := latest_version_iff_linux_entry_in_range semverMake badLinuxVersions sampleVersions
  ⟨(t.2.2.2.1 ⟨str "1", str "2", str "3", [str "rc", str "1"], [str "build", str "05"]⟩
      (by decide) (by decide) (by decide)).1.trans (by decide),
    (t.2.2.2.2.2 rfl).2,
    b.2.2.2.2.1 (by
      rw [← semverMake_snd_none_iff]
      decide)⟩

/-- C14: `CURRENT_VERSION` is version 2.1.0, with major 2, minor 1, patch 0 and
no pre-release or build identifiers; for a manifest whose Linux entry is the
text `2.1.0`, `GetLatestVersion` returns that same version, which compares as
equal to `CURRENT_VERSION` (`Compare` is 0) and is not greater (`GT` is
false). For any parser under which `MustParse("2.1.0")` does not panic the
returned version is the very value of `CURRENT_VERSION`. -/
theorem latest_2_1_0_is_current (Parse : SemverMake) (versions : Versions) (cur : Version) :
    CURRENT_VERSION semverMake =
      some { Major := 2, Minor := 1, Patch := 0, Pre := [], Build := [] } ∧
    (versions.Linux = str "2.1.0" →
      GetLatestVersion semverMake (versions, none) =
        ({ Major := 2, Minor := 1, Patch := 0, Pre := [], Build := [] }, none)) ∧
    (versions.Linux = str "2.1.0" → CURRENT_VERSION Parse = some cur →
      GetLatestVersion Parse (versions, none) = (cur, none) ∧
      (GetLatestVersion Parse (versions, none)).1.Compare cur = 0 ∧
      (GetLatestVersion Parse (versions, none)).1.GT cur = false) := by
  refine ⟨by decide, ?_, ?_⟩
  · intro h
    simp only [GetLatestVersion, h]
    decide
  · intro h hc
    have hp := mustParse_eq_some Parse _ cur hc
    have hg : GetLatestVersion Parse (versions, none) = (cur, none) := by
      simp only [GetLatestVersion, h, hp]
    rw [hg]
    refine ⟨rfl, version_compare_self cur, ?_⟩
    simp [Version.GT, version_compare_self]

/-- C14 at the modelled parser and the sample manifest. -/
theorem latest_2_1_0_is_current_witness :
    GetLatestVersion semverMake (sampleVersions, none) =
      ({ Major := 2, Minor := 1, Patch := 0, Pre := [], Build := [] }, none) ∧
    (GetLatestVersion semverMake (sampleVersions, none)).1.Compare
      { Major := 2, Minor := 1, Patch := 0, Pre := [], Build := [] } = 0 ∧
    (GetLatestVersion semverMake (sampleVersions, none)).1.GT
      { Major := 2, Minor := 1, Patch := 0, Pre := [], Build := [] } = false :=
  have t := latest_2_1_0_is_current semverMake sampleVersions
    { Major := 2, Minor := 1, Patch := 0, Pre := [], Build := [] }
  t.2.2 rfl t.1

/-- C15: profiles that are `Equal` have the same fingerprint and the same
result, string and error alike, of `SSHPublicKey`,
`AuthorizedKeyStringWithoutEmail` and `AuthorizedKeyString`, whatever their
PGP keys are and whichever ssh parser is used. -/
theorem equal_profiles_same_derivations (L : SSHPackage) (p q : Profile)
    (h : p.Equal q = true) :
    p.PublicKeyFingerprint = q.PublicKeyFingerprint ∧
    p.SSHPublicKey L = q.SSHPublicKey L ∧
    p.AuthorizedKeyStringWithoutEmail L = q.AuthorizedKeyStringWithoutEmail L ∧
    p.AuthorizedKeyString L = q.AuthorizedKeyString L := by
  obtain ⟨hw, he⟩ := (equal_eq_true_iff p q).mp h
  have hs : p.SSHPublicKey L = q.SSHPublicKey L := by
    simp only [Profile.SSHPublicKey, hw]
  refine ⟨?_, hs, ?_, ?_⟩
  · simp only [Profile.PublicKeyFingerprint, hw]
  · simp only [Profile.AuthorizedKeyStringWithoutEmail, hs, hw]
  · simp only [authorizedKeyString_eq, hs, hw, he]

/-- C15 at the sample profile and a copy of it that carries a PGP key. -/
theorem equal_profiles_same_derivations_witness :
    sampleProfile.Equal { sampleProfile with PGPPublicKey := some (.mk [1, 2, 3]) } = true ∧
    sampleProfile.AuthorizedKeyString ed25519Package =
      Profile.AuthorizedKeyString ed25519Package
        { sampleProfile with PGPPublicKey := some (.mk [1, 2, 3]) } ∧
    truncatedProfile.AuthorizedKeyString ed25519Package =
      Profile.AuthorizedKeyString ed25519Package
        { truncatedProfile with PGPPublicKey := some .nil } :=
  ⟨by decide,
    (equal_profiles_same_derivations ed25519Package sampleProfile
      { sampleProfile with PGPPublicKey := some (.mk [1, 2, 3]) } (by decide)).2.2.2,
    (equal_profiles_same_derivations ed25519Package truncatedProfile
      { truncatedProfile with PGPPublicKey := some .nil } (by decide)).2.2.2⟩

/-- C16: when the wire key parses and the email is empty or made of spaces
only, `AuthorizedKeyString` is the result of `AuthorizedKeyStringWithoutEmail`
followed by exactly one space; and for every email the line with email is
longer than the line without, so the two are never the same string when the
key parses (when it does not, both fail). -/
theorem authorizedKeyString_keeps_separator (L : SSHPackage) (p : Profile)
    (pk : L.PublicKey) (hpk : p.SSHPublicKey L = .ok pk) :
    ((∀ b ∈ p.Email, b = 32) →
      p.AuthorizedKeyString L = ((p.AuthorizedKeyStringWithoutEmail L).1 ++ str " ", none)) ∧
    (p.AuthorizedKeyString L).2 = none ∧ (p.AuthorizedKeyStringWithoutEmail L).2 = none ∧
    (p.AuthorizedKeyString L).1.length =
      (p.AuthorizedKeyStringWithoutEmail L).1.length + 1 +
        (p.Email.filter (fun b => b != 32)).length ∧
    (p.AuthorizedKeyString L).1 ≠ (p.AuthorizedKeyStringWithoutEmail L).1 ∧
    p.AuthorizedKeyString L ≠ p.AuthorizedKeyStringWithoutEmail L := by
  have hw := withoutEmail_of_ok L p pk hpk
  have ha : p.AuthorizedKeyString L =
      ((p.AuthorizedKeyStringWithoutEmail L).1 ++ str " " ++ p.Email.filter (fun b => b != 32),
        none) := by
    simp only [Profile.AuthorizedKeyString, hw, replace_space, List.append_assoc]
  have hlen : (p.AuthorizedKeyString L).1.length =
      (p.AuthorizedKeyStringWithoutEmail L).1.length + 1 +
        (p.Email.filter (fun b => b != 32)).length := by
    rw [ha, str_space]
    simp only [List.length_append, List.length_singleton]
  have hne : (p.AuthorizedKeyString L).1 ≠ (p.AuthorizedKeyStringWithoutEmail L).1 := by
    intro e
    rw [e] at hlen
    omega
  refine ⟨?_, by rw [ha], by rw [hw], hlen, hne, fun e => hne (by rw [e])⟩
  intro hsp
  have hf : p.Email.filter (fun b => b != 32) = [] := by
    rw [List.filter_eq_nil_iff]
    intro b hb
    simp [hsp b hb]
  rw [ha, hf, List.append_nil]

/-- C16 at the sample key with the empty email and with an email of two spaces. -/
theorem authorizedKeyString_keeps_separator_witness :
    Profile.AuthorizedKeyString ed25519Package { sampleProfile with Email := [] } =
      (str "ssh-ed25519 AAAAC3NzaC1lZDI1NTE5AAAAIAECAwQFBgcICQoLDA0ODxAREhMUFRYXGBkaGxwdHh8g ",
        none) ∧
    Profile.AuthorizedKeyString ed25519Package { sampleProfile with Email := str "  " } =
      (str "ssh-ed25519 AAAAC3NzaC1lZDI1NTE5AAAAIAECAwQFBgcICQoLDA0ODxAREhMUFRYXGBkaGxwdHh8g ",
        none) ∧
    sampleProfile.AuthorizedKeyString ed25519Package ≠
      sampleProfile.AuthorizedKeyStringWithoutEmail ed25519Package :=
  ⟨((authorizedKeyString_keeps_separator ed25519Package { sampleProfile with Email := [] } _
      rfl).1 (by decide)).trans (by decide),
    ((authorizedKeyString_keeps_separator ed25519Package { sampleProfile with Email := str "  " }
      _ rfl).1 (by decide)).trans (by decide),
    (authorizedKeyString_keeps_separator ed25519Package sampleProfile _ rfl).2.2.2.2.2⟩

/-- C17: `Equal` is reflexive, symmetric and transitive on all profiles, and a
profile with a nil wire key is `Equal` to the profile with an empty wire key
and the same email. -/
theorem equal_is_equivalence (p q r : Profile) (email : GoString)
    (k1 k2 : Option ByteSlice) :
    p.Equal p = true ∧
    (p.Equal q = true → q.Equal p = true) ∧
    (p.Equal q = true → q.Equal r = true → p.Equal r = true) ∧
    Profile.Equal { SSHWirePublicKey := .nil, Email := email, PGPPublicKey := k1 }
      { SSHWirePublicKey := .mk [], Email := email, PGPPublicKey := k2 } = true := by
  refine ⟨?_, ?_, ?_, ?_⟩
  · exact (equal_eq_true_iff p p).mpr ⟨rfl, rfl⟩
  · intro h
    obtain ⟨hw, he⟩ := (equal_eq_true_iff p q).mp h
    exact (equal_eq_true_iff q p).mpr ⟨hw.symm, he.symm⟩
  · intro h1 h2
    obtain ⟨hw1, he1⟩ := (equal_eq_true_iff p q).mp h1
    obtain ⟨hw2, he2⟩ := (equal_eq_true_iff q r).mp h2
    exact (equal_eq_true_iff p r).mpr ⟨hw1.trans hw2, he1.trans he2⟩
  · exact (equal_eq_true_iff _ _).mpr ⟨rfl, rfl⟩

/-- C17 at three profiles with the same email whose wire keys are nil, empty
and nil and whose PGP keys differ. -/
theorem equal_is_equivalence_witness :
    Profile.Equal { SSHWirePublicKey := .nil, Email := str "a", PGPPublicKey := none }
      { SSHWirePublicKey := .nil, Email := str "a", PGPPublicKey := some .nil } = true ∧
    Profile.Equal { SSHWirePublicKey := .mk [], Email := str "a", PGPPublicKey := none }
      { SSHWirePublicKey := .nil, Email := str "a", PGPPublicKey := none } = true :=
  have t := equal_is_equivalence
    { SSHWirePublicKey := .nil, Email := str "a", PGPPublicKey := none }
    { SSHWirePublicKey := .mk [], Email := str "a", PGPPublicKey := none }
    { SSHWirePublicKey := .nil, Email := str "a", PGPPublicKey := some .nil } (str "a") none none
  ⟨t.2.2.1 (by decide) (by decide), t.2.1 (by decide)⟩

/-- C18: with a nil `PGPPublicKey`, `PGPPublicKeySHA1Fingerprint` returns the
empty string and the error `no pgp public key` for every reader and every
bound on the reads, the bound zero included, so no packet is read; that error
is not the error `no pgp public key packet found`; and whenever the function
returns an error, for a nil or a present key, the string is empty and the
error is one of these two. -/
theorem pgpFingerprint_nil_key (Read : PacketRead) (fuel : Nat) (p : Profile) :
    (p.PGPPublicKey = none →
      p.PGPPublicKeySHA1Fingerprint Read fuel = some ([], some (str "no pgp public key")) ∧
      p.PGPPublicKeySHA1Fingerprint Read 0 = some ([], some (str "no pgp public key"))) ∧
    str "no pgp public key" ≠ str "no pgp public key packet found" ∧
    (∀ (s : GoString) (e : Error), p.PGPPublicKeySHA1Fingerprint Read fuel = some (s, some e) →
      s = [] ∧
      (p.PGPPublicKey = none ∧ e = str "no pgp public key" ∨
        p.PGPPublicKey ≠ none ∧ e = str "no pgp public key packet found")) := by
  refine ⟨?_, by decide, ?_⟩
  · intro h
    simp [Profile.PGPPublicKeySHA1Fingerprint, h]
  · intro s e h
    unfold Profile.PGPPublicKeySHA1Fingerprint at h
    split at h
    · rename_i hk
      simp only [Option.some.injEq, Prod.mk.injEq] at h
      exact ⟨h.1.symm, Or.inl ⟨hk, h.2.symm⟩⟩
    · rename_i key hk
      obtain ⟨hs, he⟩ := loop_error_empty Read fuel _ s e h
      exact ⟨hs, Or.inr ⟨by simp [hk], he⟩⟩

/-- C18 at the sample profile (no PGP key) and at a profile whose PGP key has
no packet at all. -/
theorem pgpFingerprint_nil_key_witness :
    sampleProfile.PGPPublicKeySHA1Fingerprint packetRead 0 =
      some ([], some (str "no pgp public key")) ∧
    (pgpProfile []).PGPPublicKeySHA1Fingerprint packetRead 1 =
      some ([], some (str "no pgp public key packet found")) :=
  ⟨((pgpFingerprint_nil_key packetRead 0 sampleProfile).1 rfl).1, by decide⟩

end Kr
